import Mathlib

/-!
Verification of the assistant repository's conversation loop, bounded
conversation store, retry/rate-limit executor, tool registry, reminder
reconciliation and watcher subsystems, as a shallow embedding in Lean.

Conventions used throughout:
* Python dicts with string keys are modelled as association lists
  (`List (String × _)`); a real dict has unique keys, which is noted where
  a theorem depends on it.
* Async calls to external collaborators (the LLM, the MCP executors, Google
  Calendar, Telethon) are modelled as oracle function parameters.
* Python floats are modelled as `Rat`; the delays involved
  (powers of two times small decimals) are exact in both representations.
* `datetime`-dependent values (the current-time annotation prepended to user
  messages, `created_at` fields) are environment inputs, not modelled;
  fresh UUID job ids are likewise omitted from the `Reminder` model, which is
  compared by content (owner, payload, recurrence, time) as the spec does.
-/

/-- One entry of the `tool_calls` list of a stored assistant message, i.e. the
dict `\x7b"id": …, "type": "function", "function": \x7b"name": …, "arguments": …\x7d\x7d`
built in `LLMClient._process_response`.  The constant `"type": "function"`
field is omitted. -/
structure MsgToolCall where
  id : String
  name : String
  arguments : String
deriving DecidableEq

/-- A conversation message dict as stored by `ConversationHistory` /
`ConversationRepository`: role, content, optional `tool_calls`, optional
`tool_call_id`. -/
structure Message where
  role : String
  content : String
  tool_calls : List MsgToolCall
  tool_call_id : Option String
deriving DecidableEq

/-- Shorthand for a plain (no tool calls) message. -/
def plainMsg (role content : String) : Message :=
  ⟨role, content, [], none⟩

/-- `ConversationHistory.append` / `ConversationRepository.append`
(src/app/llm/history.py and conversation_repo.py, identical logic): append the
message, then keep only the last 50 entries (`history = history[-50:]` when
`len(history) > 50`).  The per-owner Redis keying is implicit: this is the list
stored under one owner's key. -/
def historyAppend (history : List Message) (message : Message) : List Message :=
  let h := history ++ [message]
  if h.length > 50 then h.drop (h.length - 50) else h

/-- `set_system_message`: remove any existing system message, insert the new
one at index 0 (both store variants are identical). -/
def set_system_message (history : List Message) (content : String) : List Message :=
  plainMsg "system" content :: history.filter (fun m => m.role ≠ "system")

/-- `replace_with_summary`: keep the first system message if present, then a
single assistant message wrapping the summary. -/
def replace_with_summary (history : List Message) (summary : String) : List Message :=
  let sys := history.find? (fun m => m.role = "system")
  (match sys with
   | some m => [m]
   | none => []) ++
    [plainMsg "assistant" ("[Краткое содержание предыдущего диалога]\n" ++ summary)]

/-! ## Retry / rate-limit executor
(src/app/llm/retry.py `RetryHandler` and
src/internal/core/core/repository/llm_repo/llm_repo.py `_RetryHandler`,
textually identical logic). -/

/-- Exceptions a wrapped LLM call can raise.  `rateLimited` carries the
provider's `retry-after` header already parsed to a rational: `none` covers a
missing response object, a missing header, and an unparsable header (the three
code paths that all fall through to the configured default). -/
inductive LLMError
  | rateLimited (retryAfterHint : Option Rat)
  | timeout
  | connection
  | other (msg : String)
deriving DecidableEq

/-- Retry configuration (`max_retries`, `base_delay`, `max_delay`,
`rate_limit_delay`), defaults as in the source. -/
structure RetryConfig where
  max_retries : Nat
  base_delay : Rat
  max_delay : Rat
  rate_limit_delay : Rat
deriving DecidableEq

/-- The constructor defaults `(3, 1.0, 60.0, 30.0)`. -/
def defaultRetryConfig : RetryConfig := ⟨3, 1, 60, 30⟩

/-- `RetryHandler._calculate_delay`: `min(base_delay * 2 ** attempt, max_delay)`. -/
def calculateDelay (cfg : RetryConfig) (attempt : Nat) : Rat :=
  min (cfg.base_delay * 2 ^ attempt) cfg.max_delay

/-- `RetryHandler._get_rate_limit_delay`: `min(float(retry_after), max_delay)`
when a parsable `retry-after` header is present, else `rate_limit_delay`. -/
def getRateLimitDelay (cfg : RetryConfig) (hint : Option Rat) : Rat :=
  match hint with
  | some q => min q cfg.max_delay
  | none => cfg.rate_limit_delay

/-- Outcome of `RetryHandler.execute`: the wrapped call's value, the distinct
`RateLimitException` carrying `retry_after`, or a propagated exception. -/
inductive RetryResult (α : Type)
  | ok (a : α)
  | rateLimit (retry_after : Rat)
  | failed (e : LLMError)
deriving DecidableEq

/-- The body of `RetryHandler.execute`'s `for attempt in range(max_retries + 1)`
loop, starting at `attempt` with `remaining` further attempts allowed
(`remaining = max_retries - attempt`): re-indexed as structural recursion on
`remaining`.  `attempts i` is the outcome of the `i`-th invocation of the
wrapped call.  Returns the result, the number of attempts actually made, and
the list of backoff delays slept (in order).  `remaining = 0` is the final
loop iteration (`attempt == max_retries`), where `if attempt < max_retries`
is false: a transient error there falls out of the loop and `last_exception`
is re-raised. -/
def retryFinalAttempt {α : Type} (cfg : RetryConfig)
    (attempts : Nat → Except LLMError α) (attempt : Nat) :
    RetryResult α × Nat × List Rat :=
  match attempts attempt with
  | .ok a => (.ok a, attempt + 1, [])
  | .error (.rateLimited hint) =>
    (.rateLimit (getRateLimitDelay cfg hint), attempt + 1, [])
  | .error .timeout => (.failed .timeout, attempt + 1, [])
  | .error .connection => (.failed .connection, attempt + 1, [])
  | .error (.other m) => (.failed (.other m), attempt + 1, [])

/-- The non-final loop iterations: a transient error sleeps the backoff delay
and continues with the next attempt; everything else behaves as in the final
iteration. -/
def retryExecAux {α : Type} (cfg : RetryConfig) (attempts : Nat → Except LLMError α) :
    Nat → Nat → RetryResult α × Nat × List Rat
  | attempt, 0 => retryFinalAttempt cfg attempts attempt
  | attempt, r + 1 =>
    match attempts attempt with
    | .ok a => (.ok a, attempt + 1, [])
    | .error (.rateLimited hint) =>
      (.rateLimit (getRateLimitDelay cfg hint), attempt + 1, [])
    | .error .timeout =>
      let rest := retryExecAux cfg attempts (attempt + 1) r
      (rest.1, rest.2.1, calculateDelay cfg attempt :: rest.2.2)
    | .error .connection =>
      let rest := retryExecAux cfg attempts (attempt + 1) r
      (rest.1, rest.2.1, calculateDelay cfg attempt :: rest.2.2)
    | .error (.other m) => (.failed (.other m), attempt + 1, [])

/-- `RetryHandler.execute(func)`: run the loop from attempt 0 with
`max_retries` retries available.  A transient error (`APITimeoutError`,
`APIConnectionError`) at the final attempt falls out of the `for` loop and
re-raises the last exception; a `RateLimitError` immediately raises
`RateLimitException(retry_after)`; any other exception propagates at once. -/
def retryExecute {α : Type} (cfg : RetryConfig) (attempts : Nat → Except LLMError α) :
    RetryResult α × Nat × List Rat :=
  retryExecAux cfg attempts 0 cfg.max_retries

/-! ## Conversation loop (chat orchestrator)
Two near-duplicate clients exist in the repository:
`src/app/llm/client.py` (the "app" client) and
`src/internal/core/core/llm/client.py` (the "core" client).  Both are
embedded; they differ in the system-message check, in what is persisted to the
store, and in terminal/auth handling. -/

/-- One tool call of an LLM response
(`response.choices[0].message.tool_calls[i]`): `tc.id`,
`tc.function.name`, `tc.function.arguments` (a JSON string). -/
structure LLMToolCall where
  id : String
  name : String
  arguments : String
deriving DecidableEq

/-- `response.choices[0].message`: optional text content plus tool calls
(an empty list models a `None`/absent `tool_calls`, both falsy in
`if message.tool_calls:`). -/
structure LLMMessage where
  content : Option String
  tool_calls : List LLMToolCall
deriving DecidableEq

/-- The fixed apologetic message returned when the recursion depth ceiling is
hit (`depth > 5`), identical in both clients. -/
def apologyMessage : String := "Извините, произошла ошибка при обработке запроса."

/-- The full structured assistant turn `assistant_message_full` built by
`_process_response` when the response carries tool calls: role `assistant`,
`message.content or ""`, and the complete `tool_calls` list with id, name and
arguments. -/
def assistantTurnFull (resp : LLMMessage) : Message :=
  ⟨"assistant", resp.content.getD "",
    resp.tool_calls.map (fun tc => ⟨tc.id, tc.name, tc.arguments⟩), none⟩

/-- The compact assistant turn the app client saves to Redis instead
(`assistant_message_compact`): a one-line content naming the tools, no
`tool_calls` field. -/
def assistantTurnCompact (resp : LLMMessage) : Message :=
  plainMsg "assistant"
    ("[Использованы инструменты: " ++
      String.intercalate ", " (resp.tool_calls.map (fun tc => tc.name)) ++ "]")

/-- The JSON error envelope `json.dumps(\x7b"success": False, "error": str(e)\x7d)`
produced when a tool execution raises. -/
def errorEnvelope (e : String) : String :=
  "\x7b\"success\": false, \"error\": \"" ++ e ++ "\"\x7d"

/-- A `role: tool` result message (`tool_message` in `_process_response`). -/
def toolResultMsg (tool_call_id result_str : String) : Message :=
  ⟨"tool", result_str, [], some tool_call_id⟩

/-- `role: user` / `role: assistant` helpers. -/
def userMsg (content : String) : Message := plainMsg "user" content

def assistantMsg (content : String) : Message := plainMsg "assistant" content

/-- In-flight state of one chat turn: the in-memory `history` list handed to
the LLM (`ctx`), the store-persisted list (`stored`), and the number of LLM
calls made so far (`ncalls`). -/
structure LoopState where
  ctx : List Message
  stored : List Message
  ncalls : Nat
deriving DecidableEq

/-- What `self.tool_registry.execute_tool(...)` produces for the core client,
as observed by `_process_response`'s duck-typed dispatch: a Python string, a
dict (whose `error == "not_authorized"` test is pre-evaluated into a flag, and
whose `json.dumps` serialization is carried alongside), some other object
(`str(result)` pre-applied), or a raised exception (message of `str(e)`). -/
inductive ExecOutcome
  | strResult (s : String)
  | dictResult (isNotAuthorized : Bool) (jsonDump : String)
  | otherResult (s : String)
  | raises (errMsg : String)
deriving DecidableEq

/-- Early exits of the core client's tool-call loop: the terminal
`respond_to_user` string result, or the `not_authorized` short-circuit. -/
inductive CoreEarly
  | respond (s : String)
  | authRequired
deriving DecidableEq

/-- The `for tool_call in message.tool_calls:` body of the core client's
`_process_response` (src/internal/core/core/llm/client.py): execute each tool;
a `respond_to_user` string result is persisted as the assistant reply and
returned; a dict with `error == "not_authorized"` returns the auth
short-circuit; otherwise the result string (dict dump, `str(result)`, or the
error envelope for a raised exception) is appended as a `tool` message to both
the in-memory history and the store. -/
def execToolsCore (exec : String → String → ExecOutcome) :
    List LLMToolCall → List Message → List Message →
    (List Message × List Message) ⊕ (CoreEarly × List Message × List Message)
  | [], ctx, stored => .inl (ctx, stored)
  | tc :: rest, ctx, stored =>
    match exec tc.name tc.arguments with
    | .strResult s =>
      if tc.name = "respond_to_user" then
        .inr (.respond s, ctx, historyAppend stored (assistantMsg s))
      else
        let tm := toolResultMsg tc.id s
        execToolsCore exec rest (ctx ++ [tm]) (historyAppend stored tm)
    | .dictResult true _ => .inr (.authRequired, ctx, stored)
    | .dictResult false j =>
      let tm := toolResultMsg tc.id j
      execToolsCore exec rest (ctx ++ [tm]) (historyAppend stored tm)
    | .otherResult s =>
      let tm := toolResultMsg tc.id s
      execToolsCore exec rest (ctx ++ [tm]) (historyAppend stored tm)
    | .raises e =>
      let tm := toolResultMsg tc.id (errorEnvelope e)
      execToolsCore exec rest (ctx ++ [tm]) (historyAppend stored tm)

/-- Result of a whole chat turn: a user-visible reply (terminal tool result,
plain content, or the depth-ceiling apology), the auth short-circuit
(core client only), or a propagated exception from the LLM call
(`RateLimitException` or any other error). -/
inductive ChatOutcome
  | reply (text : String)
  | authRequired
  | rateLimitSignal (retry_after : Rat)
  | llmFailure (e : LLMError)
deriving DecidableEq

/-- The recursion of the core client's `_process_response`, re-indexed: the
source carries a `depth` counter, recurses at `depth + 1` and bails out at
`depth > 5`; here `fuel = 6 - depth`, so `fuel = 0` is exactly the
`depth > 5` cutoff that returns the fixed apology.  Each recursion first calls
the LLM (counted in `ncalls`) and then processes the response one level
deeper; a raised `RateLimitException` or other LLM-call error propagates out
of the whole loop. -/
def processCoreAux (llm : List Message → RetryResult LLMMessage)
    (exec : String → String → ExecOutcome) :
    Nat → LLMMessage → LoopState → ChatOutcome × LoopState
  | 0, _, st => (.reply apologyMessage, st)
  | fuel + 1, resp, st =>
    if resp.tool_calls = [] then
      let content := resp.content.getD ""
      (.reply content,
        ⟨st.ctx, historyAppend st.stored (assistantMsg content), st.ncalls⟩)
    else
      let amf := assistantTurnFull resp
      let ctx := st.ctx ++ [amf]
      let stored := historyAppend st.stored amf
      match execToolsCore exec resp.tool_calls ctx stored with
      | .inr (.respond s, ctx2, stored2) => (.reply s, ⟨ctx2, stored2, st.ncalls⟩)
      | .inr (.authRequired, ctx2, stored2) => (.authRequired, ⟨ctx2, stored2, st.ncalls⟩)
      | .inl (ctx2, stored2) =>
        match llm ctx2 with
        | .ok resp2 => processCoreAux llm exec fuel resp2 ⟨ctx2, stored2, st.ncalls + 1⟩
        | .rateLimit r => (.rateLimitSignal r, ⟨ctx2, stored2, st.ncalls + 1⟩)
        | .failed e => (.llmFailure e, ⟨ctx2, stored2, st.ncalls + 1⟩)

/-- The core client's system-message guard in `chat`:
`not history or history[0].get("role") != "system" or
history[0].get("content") != system_prompt`. -/
def needsSystemResetCore (stored : List Message) (system_prompt : String) : Bool :=
  match stored with
  | [] => true
  | m :: _ => m.role ≠ "system" || m.content ≠ system_prompt

/-- The stored history after the core client's guard: reset via
`set_system_message` (and re-read) when the guard fires, else unchanged. -/
def ensureSystemCore (stored : List Message) (system_prompt : String) : List Message :=
  if needsSystemResetCore stored system_prompt then
    set_system_message stored system_prompt
  else stored

/-- `LLMClient.chat` of the core client: ensure the system message, append the
user message to both the store (capped) and the in-memory list, make the first
LLM call through the retry handler, then process the response from depth 0
(fuel 6).  The current-time annotation prepended to `message` is part of the
input string here (it depends on the wall clock). -/
def chatCore (llm : List Message → RetryResult LLMMessage)
    (exec : String → String → ExecOutcome)
    (stored0 : List Message) (system_prompt user_text : String) :
    ChatOutcome × LoopState :=
  let ensured := ensureSystemCore stored0 system_prompt
  let u := userMsg user_text
  let stored := historyAppend ensured u
  let ctx := ensured ++ [u]
  match llm ctx with
  | .ok resp => processCoreAux llm exec 6 resp ⟨ctx, stored, 1⟩
  | .rateLimit r => (.rateLimitSignal r, ⟨ctx, stored, 1⟩)
  | .failed e => (.llmFailure e, ⟨ctx, stored, 1⟩)

/-- What the app client's `execute_tool` produces: the app tools return dicts,
observed through `result.get("type")`, `result.get("response", "")` and
`json.dumps(result)`; or the execution raises. -/
inductive AppExecOutcome
  | dict (typeField : Option String) (responseField : Option String) (jsonDump : String)
  | raises (errMsg : String)
deriving DecidableEq

/-- The `for tool_call in message.tool_calls:` body of the app client
(src/app/llm/client.py): a `respond_to_user` result with
`type == "user_response"` persists `result.get("response", "")` as the
assistant reply and returns it; otherwise `json.dumps(result)` (or the error
envelope) is appended as a `tool` message to the in-memory history only — the
app client does not persist tool results to Redis. -/
def execToolsApp (exec : String → String → AppExecOutcome) :
    List LLMToolCall → List Message → List Message →
    (List Message × List Message) ⊕ (String × List Message × List Message)
  | [], ctx, stored => .inl (ctx, stored)
  | tc :: rest, ctx, stored =>
    match exec tc.name tc.arguments with
    | .dict typeField responseField jsonDump =>
      if tc.name = "respond_to_user" && typeField = some "user_response" then
        let s := responseField.getD ""
        .inr (s, ctx, historyAppend stored (assistantMsg s))
      else
        execToolsApp exec rest (ctx ++ [toolResultMsg tc.id jsonDump]) stored
    | .raises e =>
        execToolsApp exec rest (ctx ++ [toolResultMsg tc.id (errorEnvelope e)]) stored

/-- The app client's `_process_response`, same `depth`-to-`fuel` re-indexing as
`processCoreAux`.  Differences from the core client: the turn persisted to the
store is the compact `assistant_message_compact`, tool results are not
persisted, and there is no `not_authorized` short-circuit. -/
def processAppAux (llm : List Message → RetryResult LLMMessage)
    (exec : String → String → AppExecOutcome) :
    Nat → LLMMessage → LoopState → ChatOutcome × LoopState
  | 0, _, st => (.reply apologyMessage, st)
  | fuel + 1, resp, st =>
    if resp.tool_calls = [] then
      let content := resp.content.getD ""
      (.reply content,
        ⟨st.ctx, historyAppend st.stored (assistantMsg content), st.ncalls⟩)
    else
      let ctx := st.ctx ++ [assistantTurnFull resp]
      let stored := historyAppend st.stored (assistantTurnCompact resp)
      match execToolsApp exec resp.tool_calls ctx stored with
      | .inr (s, ctx2, stored2) => (.reply s, ⟨ctx2, stored2, st.ncalls⟩)
      | .inl (ctx2, stored2) =>
        match llm ctx2 with
        | .ok resp2 => processAppAux llm exec fuel resp2 ⟨ctx2, stored2, st.ncalls + 1⟩
        | .rateLimit r => (.rateLimitSignal r, ⟨ctx2, stored2, st.ncalls + 1⟩)
        | .failed e => (.llmFailure e, ⟨ctx2, stored2, st.ncalls + 1⟩)

/-- The app client's system-message guard:
`not history or history[0].get("role") != "system"` (role only — the app
system prompt is a constant, so no content comparison is made). -/
def needsSystemResetApp (stored : List Message) : Bool :=
  match stored with
  | [] => true
  | m :: _ => m.role ≠ "system"

/-- The stored history after the app client's guard. -/
def ensureSystemApp (stored : List Message) (system_prompt : String) : List Message :=
  if needsSystemResetApp stored then set_system_message stored system_prompt
  else stored

/-- `LLMClient.chat` of the app client. -/
def chatApp (llm : List Message → RetryResult LLMMessage)
    (exec : String → String → AppExecOutcome)
    (stored0 : List Message) (system_prompt user_text : String) :
    ChatOutcome × LoopState :=
  let ensured := ensureSystemApp stored0 system_prompt
  let u := userMsg user_text
  let stored := historyAppend ensured u
  let ctx := ensured ++ [u]
  match llm ctx with
  | .ok resp => processAppAux llm exec 6 resp ⟨ctx, stored, 1⟩
  | .rateLimit r => (.rateLimitSignal r, ⟨ctx, stored, 1⟩)
  | .failed e => (.llmFailure e, ⟨ctx, stored, 1⟩)

/-! ## Tool registry and MCP schemas
(src/internal/core/core/services/tool_registry/tool_registry.py and
src/internal/core/core/repository/mcp_repo/mcp_repo.py). -/

/-- A JSON argument value, restricted to what the claims need to observe:
numbers (the injected owner id is an int) and strings. -/
inductive JVal
  | jint (n : Int)
  | jstr (s : String)
deriving DecidableEq

/-- Python dict assignment `d[k] = v` on an association list: overwrite the
existing entry in place, else append. -/
def dictSet {β : Type} (l : List (String × β)) (k : String) (v : β) :
    List (String × β) :=
  if l.any (fun p => p.1 = k) then
    l.map (fun p => if p.1 = k then (k, v) else p)
  else l ++ [(k, v)]

/-- Python dict lookup `d.get(k)`. -/
def dictGet {β : Type} (l : List (String × β)) (k : String) : Option β :=
  (l.find? (fun p => p.1 = k)).map (fun p => p.2)

/-- An MCP tool schema as cached by `MCPRepository.connect`: the tool name,
description, and its `inputSchema`'s `properties` (a dict, here an association
list over opaque per-property schema bodies) and `required` list. -/
structure MCPToolSchema where
  name : String
  description : String
  properties : List (String × String)
  required : List String
deriving DecidableEq

/-- One OpenAI-format entry of `get_tool_schemas`'s output; the constant
`"type": "function"` and `"type": "object"` wrappers are omitted. -/
structure OpenAITool where
  name : String
  description : String
  properties : List (String × String)
  required : List String
deriving DecidableEq

/-- Python `list.remove(x)`: delete the first occurrence only. -/
def listRemoveFirst (l : List String) (x : String) : List String :=
  match l with
  | [] => []
  | a :: rest => if a = x then rest else a :: listRemoveFirst rest x

/-- `MCPRepository.get_tool_schemas`: for each cached tool, copy `properties`
and pop the `"user_id"` key (a dict pop; since dict keys are unique, dropping
every entry with that key is the same operation), and remove `"user_id"` from
`required` via `list.remove` — which deletes only the first occurrence — when
present. -/
def mcpGetToolSchemas (tools : List MCPToolSchema) : List OpenAITool :=
  tools.map (fun t =>
    ⟨t.name, t.description,
      t.properties.filter (fun p => p.1 ≠ "user_id"),
      if "user_id" ∈ t.required then listRemoveFirst t.required "user_id"
      else t.required⟩)

/-- The registry's name → executor resolution, as data: which executor
`ToolRegistry.execute_tool` dispatches to and with which argument dict. -/
inductive DispatchTarget
  | localTool (name : String) (args : List (String × JVal))
  | mcpTool (name : String) (args : List (String × JVal))
  | toolNotFound
deriving DecidableEq

/-- `ToolRegistry.execute_tool(name, user_id, arguments)`: local tools are
checked first and called with the arguments as-is; otherwise, for a known MCP
tool, `arguments["user_id"] = user_id` is injected before dispatch; an unknown
name raises `ValueError` (`toolNotFound`). `mcpToolNames = []` also covers an
absent `mcp_repo`. -/
def executeToolDispatch (localToolNames mcpToolNames : List String)
    (name : String) (user_id : Int) (arguments : List (String × JVal)) :
    DispatchTarget :=
  if name ∈ localToolNames then .localTool name arguments
  else if name ∈ mcpToolNames then
    .mcpTool name (dictSet arguments "user_id" (.jint user_id))
  else .toolNotFound

/-! ## Reminder reconciliation (`ReminderScheduler._sync_from_calendar`,
src/app/scheduler/service.py). -/

/-- Modelled from the spec: the constant `REMINDER_TAG` is imported from
`app.constants` but not defined anywhere under src/ — the marker that tags a
calendar event as reminder-origin ("calendar events tagged with a marker",
§2/§6); `_sync_from_calendar`'s docstring names the `#напоминание` tag, so
that value is used.  No claim's outcome depends on the exact value. -/
def REMINDER_TAG : String := "#напоминание"

/-- A Google Calendar event as consumed by `_sync_from_calendar`: id, optional
recurring parent id, description, start string, recurrence rules. -/
structure CalEvent where
  id : String
  recurring_event_id : Option String
  description : String
  start : String
  recurrence : List String
deriving DecidableEq

/-- A persisted reminder record (`ReminderStorage.save_reminder`).  The fresh
UUID `id` and the wall-clock `created_at` are omitted; reminders are compared
by content, as the reconciliation claims do. -/
structure Reminder where
  user_id : Int
  template : String
  schedule_type : String
  time : String
  timezone : String
  weekday : Option Nat
  calendar_event_id : Option String
  is_active : Bool
deriving DecidableEq

/-- Structural substring search over character lists (the library's own
`splitOn`-based search uses well-founded recursion, which would block
evaluation of concrete instances). -/
def listContainsSub : List Char → List Char → Bool
  | [], sub => sub.isEmpty
  | c :: rest, sub => sub.isPrefixOf (c :: rest) || listContainsSub rest sub

/-- Python `sub in s` (substring containment). -/
def containsSub (s sub : String) : Bool := listContainsSub s.data sub.data

/-- Python `s.startswith(pre)`. -/
def pyStartsWith (s pre : String) : Bool := pre.data.isPrefixOf s.data

/-- An ASCII whitespace character, as stripped by Python `str.strip()`
(which also strips some Unicode spaces; the events at hand contain none). -/
def isPySpace (c : Char) : Bool :=
  c = ' ' || c = '\t' || c = '\n' || c = '\r' || c = '\x0b' || c = '\x0c'

/-- Python `s.strip()`. -/
def pyTrim (s : String) : String :=
  ⟨((s.data.dropWhile isPySpace).reverse.dropWhile isPySpace).reverse⟩

/-- Replace every occurrence of the single character `c` (Python
`s.replace(c, rep)` for a one-character pattern, which is the only form the
scheduler uses: `start_str.replace("Z", "+00:00")`). -/
def replaceCharList (c : Char) (rep : List Char) : List Char → List Char
  | [] => []
  | x :: rest => (if x = c then rep else [x]) ++ replaceCharList c rep rest

/-- Char to digit value, for the fixed-width start-string parser. -/
def digitVal (c : Char) : Nat := c.toNat - 48

/-- Format a number below 100 as two digits (Python `f"\x7bn:02d\x7d"` for the
offset components, which are < 24 and < 60). -/
def twoDigits (n : Nat) : String :=
  (if n < 10 then "0" else "") ++ toString n

/-- Day count from civil date (days since 1970-01-01, Gregorian), used for
`datetime.weekday()`. -/
def daysFromCivil (y : Int) (m d : Nat) : Int :=
  let y : Int := if m ≤ 2 then y - 1 else y
  let era : Int := (if 0 ≤ y then y else y - 399) / 400
  let yoe : Int := y - era * 400
  let mp : Nat := (m + 9) % 12
  let doy : Int := (153 * mp + 2) / 5 + d - 1
  let doe : Int := yoe * 365 + yoe / 4 - yoe / 100 + doy
  era * 146097 + doe - 719468

/-- `datetime.weekday()`: Monday = 0 … Sunday = 6 (1970-01-01 was a Thursday,
weekday 3). -/
def pyWeekday (y : Int) (m d : Nat) : Nat :=
  ((daysFromCivil y m d + 3) % 7).toNat

/-- What `_sync_from_calendar` extracts from a parsed event start:
`strftime("%H:%M")`, the derived timezone string, and `weekday()`. -/
structure ParsedStart where
  time_str : String
  timezone_value : String
  weekday : Nat
deriving DecidableEq

/-- The start-string parse of `_sync_from_calendar`, on the character list of
the start string after the `replace("Z", "+00:00")` step.  It models
`datetime.fromisoformat` restricted to the fixed-width RFC 3339 shape
`YYYY-MM-DDTHH:MM:SS±HH:MM` the calendar service produces; any other shape is
`none` (the `except (ValueError, AttributeError): continue` path).  A naive
datetime (no offset) also yields `none`: in the source it reaches the
"missing timezone, skipping" branch, the same skip.  `fromisoformat` builds
fixed-offset timezones, which never expose a `key` attribute, so
`timezone_value` is always the `±HH:MM` form rebuilt from the parsed offset
(`f"\x7bsign\x7d\x7bhours:02d\x7d:\x7bminutes:02d\x7d"` over
`divmod(abs(total_minutes), 60)`). -/
def parseStartChars : List Char → Option ParsedStart
  | [y1, y2, y3, y4, '-', m1, m2, '-', d1, d2, 'T',
     h1, h2, ':', n1, n2, ':', s1, s2, sg, o1, o2, ':', p1, p2] =>
    if ([y1, y2, y3, y4, m1, m2, d1, d2, h1, h2, n1, n2, s1, s2, o1, o2, p1, p2].all
          Char.isDigit) && (sg = '+' || sg = '-') then
      let month := digitVal m1 * 10 + digitVal m2
      let day := digitVal d1 * 10 + digitVal d2
      let hour := digitVal h1 * 10 + digitVal h2
      let minute := digitVal n1 * 10 + digitVal n2
      let second := digitVal s1 * 10 + digitVal s2
      let offH := digitVal o1 * 10 + digitVal o2
      let offM := digitVal p1 * 10 + digitVal p2
      if 1 ≤ month && month ≤ 12 && 1 ≤ day && day ≤ 31 && hour ≤ 23 &&
          minute ≤ 59 && second ≤ 59 && offH ≤ 23 && offM ≤ 59 then
        let year : Int := (digitVal y1 * 1000 + digitVal y2 * 100 +
          digitVal y3 * 10 + digitVal y4 : Nat)
        -- sign is "+" iff total_minutes >= 0; a "-00:00" offset has
        -- total_minutes = 0 and is re-rendered as "+00:00"
        let sign := if sg = '-' && (offH * 60 + offM > 0) then "-" else "+"
        some ⟨twoDigits hour ++ ":" ++ twoDigits minute,
          sign ++ twoDigits offH ++ ":" ++ twoDigits offM,
          pyWeekday year month day⟩
      else none
    else none
  | _ => none

/-- Parse an event's raw start string: `start_str.replace("Z", "+00:00")`,
then `fromisoformat` as above. -/
def parseStart (start_str : String) : Option ParsedStart :=
  parseStartChars (replaceCharList 'Z' "+00:00".data start_str.data)

/-- The weekday map of the `BYDAY` scan, in the source's dict order; the scan
takes the first abbreviation that occurs anywhere in the rule string. -/
def firstDayIn (rule : String) : Option Nat :=
  (([("MO", 0), ("TU", 1), ("WE", 2), ("TH", 3), ("FR", 4), ("SA", 5),
     ("SU", 6)] : List (String × Nat)).find?
    (fun p => containsSub rule p.1)).map (fun p => p.2)

/-- The `for rule in recurrence:` scan of `_sync_from_calendar`: the first rule
containing `"FREQ=WEEKLY"` makes the schedule weekly, with the weekday from the
`BYDAY` scan when a day abbreviation is found, else `start_dt.weekday()`;
otherwise the default is daily with no weekday. -/
def parseScheduleType (startWeekday : Nat) : List String → String × Option Nat
  | [] => ("daily", none)
  | rule :: rest =>
    if containsSub rule "FREQ=WEEKLY" then
      let wd := if containsSub rule "BYDAY=" then firstDayIn rule else none
      ("weekly", some (wd.getD startWeekday))
    else parseScheduleType startWeekday rest

/-- The per-pass accumulator of `_sync_from_calendar`: `synced_event_ids`
(a set, modelled as the list of ids in insertion order) and the reminders
created so far. -/
structure SyncAcc where
  synced : List String
  jobs : List Reminder
deriving DecidableEq

/-- `recurring_event_id or event.get("id")` — Python `or`, so an empty string
also falls back to the event's own id. -/
def calEventId (e : CalEvent) : String :=
  match e.recurring_event_id with
  | some s => if s = "" then e.id else s
  | none => e.id

/-- The `for event in events:` body of `_sync_from_calendar`: skip events not
starting with the reminder tag, events already synced this pass, events with an
empty stripped template, an empty start string or an unparsable/naive start;
otherwise create (and schedule) a reminder and record the event id. -/
def syncProcessEvent (u : Int) (acc : SyncAcc) (e : CalEvent) : SyncAcc :=
  if ¬ pyStartsWith e.description REMINDER_TAG then acc
  else
    let eid := calEventId e
    if eid ∈ acc.synced then acc
    else
      let template := pyTrim (e.description.drop REMINDER_TAG.length)
      if template = "" then acc
      else if e.start = "" then acc
      else
        match parseStart e.start with
        | none => acc
        | some ps =>
          let sw := parseScheduleType ps.weekday e.recurrence
          ⟨acc.synced ++ [eid],
            acc.jobs ++ [⟨u, template, sw.1, ps.time_str, ps.timezone_value,
              sw.2, some eid, true⟩]⟩

/-- The per-user body of the sync loop: fetching credentials can raise
(caught, user skipped) or return nothing (user skipped); fetching events can
raise (caught, user skipped); otherwise every event is processed in order.
`creds u = .ok true` means usable credentials exist. -/
def syncUser (creds : Int → Except Unit Bool)
    (events : Int → Except Unit (List CalEvent)) (acc : SyncAcc) (u : Int) :
    SyncAcc :=
  match creds u with
  | .error _ => acc
  | .ok false => acc
  | .ok true =>
    match events u with
    | .error _ => acc
    | .ok evs => evs.foldl (syncProcessEvent u) acc

/-- De-duplication keeping first occurrences, the model of building the Python
set `user_ids` (iteration order of the model is first-appearance order; the
source's set iteration order is unspecified, and no claim depends on it). -/
def dedupKeepFirst : List Int → List Int
  | [] => []
  | x :: xs => x :: (dedupKeepFirst xs).filter (fun y => y ≠ x)

/-- The owner universe of a pass:
`set(r.get("user_id") for r in existing_reminders if r.get("user_id"))` over
the active reminders — a falsy (0) owner id is excluded. -/
def syncUserIds (existing : List Reminder) : List Int :=
  dedupKeepFirst
    (((existing.filter (fun r => r.is_active)).map (fun r => r.user_id)).filter
      (fun u => u ≠ 0))

/-- `ReminderScheduler._sync_from_calendar`: collect the owners of the
currently persisted active reminders, unschedule and delete ALL persisted
reminders (wholesale — the output below is rebuilt from scratch, so the
deleted state never survives), then for each owner re-create reminders from
the freshly fetched tagged calendar events.  Returns the persisted reminder
set after the pass. -/
def syncFromCalendar (creds : Int → Except Unit Bool)
    (events : Int → Except Unit (List CalEvent)) (existing : List Reminder) :
    List Reminder :=
  ((syncUserIds existing).foldl (syncUser creds events) ⟨[], []⟩).jobs

/-! ## Watcher tick
(src/internal/core/core/services/watcher_service/watcher_service.py
`_process_watcher`, together with the `fetch_new_chat_messages` MCP tool it
calls, src/internal/mcp/summaries handlers/channel_handler.py — the server.py
copy is identical). -/

/-- A Telegram message as returned by `TelethonRepository.get_messages_since`;
only the id and text are relevant to the cursor claims (sender, date and chat
title ride along in the source). -/
structure ChatItem where
  id : Nat
  text : String
deriving DecidableEq

/-- `get_messages_since(chat_id, min_id, limit)`: Telethon's `iter_messages`
yields the chat's messages newest-first, only those with `id > min_id`
(`min_id` is exclusive), at most `limit` of them; messages without text are
skipped after the limit is applied; the collected list is then reversed back
to ascending order.  `univ chat` is the chat's full message list in ascending
id order (the Telethon collaborator is the oracle here). -/
def get_messages_since (univ : String → List ChatItem)
    (chat : String) (min_id : Nat) (limit : Nat) : List ChatItem :=
  (((((univ chat).filter (fun m => min_id < m.id)).reverse.take limit).filter
      (fun m => m.text ≠ "")).reverse)

/-- `max(m["id"] for m in messages)` (used only on nonempty lists). -/
def maxItemId (l : List ChatItem) : Nat :=
  l.foldl (fun a m => max a m.id) 0

/-- The successful payload of `fetch_new_chat_messages`: the concatenated new
messages and the updated `last_message_ids` dict. -/
structure FetchOk where
  messages : List ChatItem
  last_message_ids : List (String × Nat)
deriving DecidableEq

/-- The `for chat_id in chat_ids:` loop of `fetch_new_chat_messages`: each
chat's `min_id` comes from the ORIGINAL `last_message_ids`; a chat with no
cursor (`min_id == 0`, the `.get(…, 0)` default) only records the latest
message id without fetching content; otherwise the new messages (limit 500)
are appended and the chat's cursor becomes their maximum id when any were
fetched. -/
def fetchFold (univ : String → List ChatItem) (last_ids : List (String × Nat)) :
    List String → FetchOk → FetchOk
  | [], acc => acc
  | chat :: rest, acc =>
    let min_id := (dictGet last_ids chat).getD 0
    if min_id = 0 then
      let latest := get_messages_since univ chat 0 1
      let acc2 : FetchOk :=
        if latest = [] then acc
        else ⟨acc.messages, dictSet acc.last_message_ids chat (maxItemId latest)⟩
      fetchFold univ last_ids rest acc2
    else
      let msgs := get_messages_since univ chat min_id 500
      let acc2 : FetchOk :=
        if msgs = [] then acc
        else ⟨acc.messages ++ msgs, dictSet acc.last_message_ids chat (maxItemId msgs)⟩
      fetchFold univ last_ids rest acc2

/-- `fetch_new_chat_messages(user_id, chat_ids, last_message_ids)`, success
path (`authed = true` models a present Telethon session; without it the tool
returns an error envelope and the watcher tick leaves the cursors alone). -/
def fetch_new_chat_messages (univ : String → List ChatItem)
    (chat_ids : List String) (last_ids : List (String × Nat)) : FetchOk :=
  fetchFold univ last_ids chat_ids ⟨[], last_ids⟩

/-- A persisted watcher record, restricted to the fields `_process_watcher`
reads. -/
structure Watcher where
  user_id : Int
  prompt : String
  chat_ids : List String
  last_message_ids : List (String × Nat)
deriving DecidableEq

/-- Result of one watcher tick: the cursor dict persisted by
`update_last_check` (`none` when the fetch failed and nothing was persisted)
and the set of messages delivered to the owner. -/
structure TickResult where
  persistedCursors : Option (List (String × Nat))
  delivered : List ChatItem
deriving DecidableEq

/-- `WatcherService._process_watcher`: fetch new messages; on failure return
without touching state; on success persist `last_check_at` and the new cursor
dict FIRST, then run the LLM filter (`llmFilter msgs prompt` — the filtering
LLM is an oracle) and deliver only a nonempty match set. -/
def process_watcher (authed : Bool) (univ : String → List ChatItem)
    (llmFilter : List ChatItem → String → List ChatItem) (w : Watcher) :
    TickResult :=
  if ¬ authed then ⟨none, []⟩
  else
    let r := fetch_new_chat_messages univ w.chat_ids w.last_message_ids
    if r.messages = [] then ⟨some r.last_message_ids, []⟩
    else
      let filtered := llmFilter r.messages w.prompt
      if filtered = [] then ⟨some r.last_message_ids, []⟩
      else ⟨some r.last_message_ids, filtered⟩

/-- The error carried by a failed attempt (`last_exception` when the retry
loop exhausts); junk on a successful attempt, which no theorem uses. -/
def exceptErr {α : Type} : Except LLMError α → LLMError
  | .error e => e
  | .ok _ => .other ""


/-! # Theorems -/

/-! ## Bounded history (C2) -/

/-- One append leaves the store at or under the 50-message cap (the slice
`history[-50:]` enforces it whatever the previous length was). -/
theorem historyAppend_length_le (h : List Message) (m : Message) :
    (historyAppend h m).length ≤ 50 := by
  simp only [historyAppend]
  split
  · simp only [List.length_drop]
    omega
  · rename_i hle
    simp only [gt_iff_lt, not_lt] at hle
    exact hle

/-- Any sequence of appends keeps the store at or under the cap. -/
theorem historyAppend_foldl_length_le (msgs : List Message) :
    ∀ init : List Message, init.length ≤ 50 →
      (msgs.foldl historyAppend init).length ≤ 50 := by
  induction msgs with
  | nil => intro init h; simpa using h
  | cons m rest ih =>
    intro init h
    exact ih (historyAppend init m) (historyAppend_length_le init m)

/-- C2 (amended): after any sequence of appends the stored list never exceeds
the cap of 50, and each eviction removes the oldest messages first — the
result of an append is always a suffix of the old list plus the new message
(plain FIFO over all messages, the system message included). -/
theorem history_cap_and_fifo_eviction (init msgs : List Message) (m : Message)
    (hinit : init.length ≤ 50) :
    (msgs.foldl historyAppend init).length ≤ 50 ∧
      historyAppend init m <:+ init ++ [m] := by
  refine ⟨historyAppend_foldl_length_le msgs init hinit, ?_⟩
  simp only [historyAppend]
  split
  · exact List.drop_suffix _ _
  · exact List.suffix_refl _

/-- Witness for `history_cap_and_fifo_eviction` at a concrete store. -/
theorem history_cap_and_fifo_eviction_witness :
    ([plainMsg "system" "s"] : List Message).length ≤ 50 ∧
      (([plainMsg "user" "hi"].foldl historyAppend [plainMsg "system" "s"]).length ≤ 50 ∧
        historyAppend [plainMsg "system" "s"] (plainMsg "user" "hi") <:+
          [plainMsg "system" "s"] ++ [plainMsg "user" "hi"]) :=
  ⟨by decide,
    history_cap_and_fifo_eviction [plainMsg "system" "s"] [plainMsg "user" "hi"]
      (plainMsg "user" "hi") (by decide)⟩

/-- C2 (counterexample): appending to a full store whose oldest message is the
system message evicts the system message — `history[-50:]` does not protect
it. -/
theorem history_evicts_system_message_counterexample :
    historyAppend (plainMsg "system" "s" :: List.replicate 49 (plainMsg "user" "u"))
        (plainMsg "user" "u") = List.replicate 50 (plainMsg "user" "u") ∧
      ∀ m ∈ historyAppend
          (plainMsg "system" "s" :: List.replicate 49 (plainMsg "user" "u"))
          (plainMsg "user" "u"), m.role ≠ "system" := by
  constructor
  · rfl
  · decide

/-! ## System-message re-insertion at the start of a turn (C9) -/

/-- C9: at the start of a chat turn, a stored history that is empty or whose
first message is not the expected system message is reset via
`set_system_message` (core client guard); consequently the message list sent
to the LLM — the ensured history plus the appended user message — always
begins with a system message, for the core and the app client alike. -/
theorem chat_reinserts_system_message (stored : List Message) (p u : String) :
    (needsSystemResetCore stored p = true →
      ensureSystemCore stored p = set_system_message stored p) ∧
      ((ensureSystemCore stored p ++ [userMsg u]).head?.map Message.role =
        some "system") ∧
      ((ensureSystemApp stored p ++ [userMsg u]).head?.map Message.role =
        some "system") := by
  refine ⟨fun h => by simp [ensureSystemCore, h], ?_, ?_⟩
  · unfold ensureSystemCore
    split
    · simp [set_system_message, plainMsg]
    · rename_i h
      unfold needsSystemResetCore at h
      match stored, h with
      | [], h => simp at h
      | m :: rest, h =>
        simp only [Bool.or_eq_true, decide_eq_true_eq, not_or] at h
        have hrole : m.role = "system" := not_not.mp h.1
        simp [hrole]
  · unfold ensureSystemApp
    split
    · simp [set_system_message, plainMsg]
    · rename_i h
      unfold needsSystemResetApp at h
      match stored, h with
      | [], h => simp at h
      | m :: rest, h =>
        have hrole : m.role = "system" := by
          by_contra hc
          simp [hc] at h
        simp [hrole]

/-- Witness for `chat_reinserts_system_message` at a concrete stored history
(empty store, so the guard fires). -/
theorem chat_reinserts_system_message_witness :
    (needsSystemResetCore [] "prompt" = true →
      ensureSystemCore [] "prompt" = set_system_message [] "prompt") ∧
      ((ensureSystemCore [] "prompt" ++ [userMsg "hi"]).head?.map Message.role =
        some "system") ∧
      ((ensureSystemApp [] "prompt" ++ [userMsg "hi"]).head?.map Message.role =
        some "system") :=
  chat_reinserts_system_message [] "prompt" "hi"

/-! ## Retry executor (C3, C8) -/

/-- When every attempt in the window raises a transient error, the retry loop
makes `remaining + 1` attempts from `attempt`, sleeps
`calculateDelay` before each retry, and finally propagates the last error. -/
theorem retryExecAux_all_transient {α : Type} (cfg : RetryConfig)
    (attempts : Nat → Except LLMError α) :
    ∀ (remaining attempt : Nat),
      (∀ k, attempt ≤ k → k ≤ attempt + remaining →
        attempts k = .error .timeout ∨ attempts k = .error .connection) →
      retryExecAux cfg attempts attempt remaining =
        (.failed (exceptErr (attempts (attempt + remaining))),
          attempt + remaining + 1,
          (List.range remaining).map (fun i => calculateDelay cfg (attempt + i))) := by
  intro remaining
  induction remaining with
  | zero =>
    intro attempt h
    rcases h attempt le_rfl (by omega) with h0 | h0 <;>
      simp [retryExecAux, retryFinalAttempt, h0, exceptErr]
  | succ r ih =>
    intro attempt h
    have hnext := ih (attempt + 1) (fun k hk1 hk2 => h k (by omega) (by omega))
    have hranges :
        (List.range (r + 1)).map (fun i => calculateDelay cfg (attempt + i)) =
          calculateDelay cfg attempt ::
            (List.range r).map (fun i => calculateDelay cfg (attempt + 1 + i)) := by
      rw [List.range_succ_eq_map]
      simp only [List.map_cons, List.map_map, Nat.add_zero]
      congr 1
      apply List.map_congr_left
      intro i _
      simp only [Function.comp_apply]
      congr 1
      omega
    have harith : attempt + 1 + r = attempt + (r + 1) := by omega
    rcases h attempt (by omega) (by omega) with h0 | h0 <;>
      · rw [retryExecAux, h0]
        simp only [hnext, hranges, harith]

/-- C8: (i) when every attempt raises a transient (timeout/connection) error,
the call is retried `max_retries` times, each retry preceded by the backoff
delay `min(base_delay * 2 ^ attempt, max_delay)`, and on exhaustion the last
transient error is propagated after `max_retries + 1` attempts; (ii) an error
that is neither transient nor a rate limit is propagated immediately after one
attempt with no backoff; (iii) a transient error that resolves on the next
attempt is invisible: one backoff sleep, then the value is returned. -/
theorem retry_backoff_and_propagation {α : Type} (cfg : RetryConfig)
    (attemptsT attemptsO attemptsR : Nat → Except LLMError α) (m : String) (a : α)
    (hT : ∀ k, k ≤ cfg.max_retries →
      attemptsT k = .error .timeout ∨ attemptsT k = .error .connection)
    (hO : attemptsO 0 = .error (.other m))
    (hR0 : 1 ≤ cfg.max_retries)
    (hR1 : attemptsR 0 = .error .timeout) (hR2 : attemptsR 1 = .ok a) :
    retryExecute cfg attemptsT =
      (.failed (exceptErr (attemptsT cfg.max_retries)), cfg.max_retries + 1,
        (List.range cfg.max_retries).map (calculateDelay cfg)) ∧
      retryExecute cfg attemptsO = (.failed (.other m), 1, []) ∧
      retryExecute cfg attemptsR = (.ok a, 2, [calculateDelay cfg 0]) := by
  refine ⟨?_, ?_, ?_⟩
  · have h := retryExecAux_all_transient cfg attemptsT cfg.max_retries 0
      (fun k hk1 hk2 => hT k (by omega))
    simpa [retryExecute] using h
  · unfold retryExecute
    cases cfg.max_retries <;> simp [retryExecAux, retryFinalAttempt, hO]
  · obtain ⟨r, hr⟩ : ∃ r, cfg.max_retries = r + 1 :=
      ⟨cfg.max_retries - 1, by omega⟩
    rw [retryExecute, hr, retryExecAux, hR1]
    cases r <;> simp [retryExecAux, retryFinalAttempt, hR2]

/-- Witness for `retry_backoff_and_propagation` with the default configuration
(3 retries, delays 1, 2, 4 seconds). -/
theorem retry_backoff_and_propagation_witness :
    (∀ k, k ≤ defaultRetryConfig.max_retries →
      (fun _ => (.error .timeout : Except LLMError Unit)) k = .error .timeout ∨
        (fun _ => (.error .timeout : Except LLMError Unit)) k = .error .connection) ∧
      (retryExecute defaultRetryConfig (fun _ => (.error .timeout : Except LLMError Unit)) =
        (.failed (exceptErr ((fun _ => (.error .timeout : Except LLMError Unit))
          defaultRetryConfig.max_retries)), defaultRetryConfig.max_retries + 1,
          (List.range defaultRetryConfig.max_retries).map (calculateDelay defaultRetryConfig)) ∧
        retryExecute defaultRetryConfig (fun _ => (.error (.other "boom") : Except LLMError Unit)) =
          (.failed (.other "boom"), 1, []) ∧
        retryExecute defaultRetryConfig
            (fun k => if k = 0 then (.error .timeout : Except LLMError Unit) else .ok ()) =
          (.ok (), 2, [calculateDelay defaultRetryConfig 0])) :=
  ⟨fun k _ => Or.inl rfl,
    retry_backoff_and_propagation defaultRetryConfig _ _ _ "boom" ()
      (fun k _ => Or.inl rfl) rfl (by decide) rfl rfl⟩

/-- C3 (counterexample): with the default configuration, a rate-limit error
whose `retry-after` hint is 100 raises a signal with `retry_after = 60`
(the hint is clamped to `max_delay`), not 100 — so the signal's value is not
always "taken from the provider's retry-after hint". -/
theorem rate_limit_retry_after_clamped_counterexample :
    retryExecute defaultRetryConfig
        (fun _ => (.error (.rateLimited (some 100)) : Except LLMError Unit)) =
      (.rateLimit 60, 1, []) ∧ (60 : Rat) ≠ 100 := by
  constructor
  · unfold retryExecute defaultRetryConfig
    simp [retryExecAux, getRateLimitDelay]
    decide
  · decide

/-- C3 (amended): a rate-limit error on the first attempt raises the distinct
rate-limit signal immediately — exactly one attempt, no sleep, no silent
retry — carrying `retry_after = min(hint, max_delay)` when the provider's
retry-after hint is present, else the configured default; and a chat turn
whose first LLM call raises the signal propagates it out of the whole loop
with zero additional LLM calls (one call in total). -/
theorem rate_limit_immediate_signal {α : Type} (cfg : RetryConfig)
    (attempts : Nat → Except LLMError α) (hint : Option Rat)
    (h0 : attempts 0 = .error (.rateLimited hint))
    (exec : String → String → ExecOutcome) (r : Rat)
    (stored0 : List Message) (p u : String) :
    retryExecute cfg attempts =
      (.rateLimit (getRateLimitDelay cfg hint), 1, []) ∧
      (∀ q, getRateLimitDelay cfg (some q) = min q cfg.max_delay) ∧
      getRateLimitDelay cfg none = cfg.rate_limit_delay ∧
      (chatCore (fun _ => .rateLimit r) exec stored0 p u).1 = .rateLimitSignal r ∧
      (chatCore (fun _ => .rateLimit r) exec stored0 p u).2.ncalls = 1 := by
  refine ⟨?_, fun q => rfl, rfl, rfl, rfl⟩
  unfold retryExecute
  cases cfg.max_retries <;> simp [retryExecAux, retryFinalAttempt, h0]

/-- Witness for `rate_limit_immediate_signal`: a rate limit with no retry-after
hint under the default configuration. -/
theorem rate_limit_immediate_signal_witness :
    (fun _ : Nat => (.error (.rateLimited none) : Except LLMError Unit)) 0 =
        .error (.rateLimited none) ∧
      (retryExecute defaultRetryConfig
          (fun _ => (.error (.rateLimited none) : Except LLMError Unit)) =
        (.rateLimit (getRateLimitDelay defaultRetryConfig none), 1, []) ∧
        (∀ q, getRateLimitDelay defaultRetryConfig (some q) =
          min q defaultRetryConfig.max_delay) ∧
        getRateLimitDelay defaultRetryConfig none = defaultRetryConfig.rate_limit_delay ∧
        (chatCore (fun _ => .rateLimit 30) (fun _ _ => .strResult "") [] "p" "hi").1 =
          .rateLimitSignal 30 ∧
        (chatCore (fun _ => .rateLimit 30) (fun _ _ => .strResult "") [] "p" "hi").2.ncalls = 1) :=
  ⟨rfl, rate_limit_immediate_signal defaultRetryConfig _ none rfl _ 30 [] "p" "hi"⟩

/-! ## Depth ceiling of the conversation loop (C1) -/

/-- When no tool call is named `respond_to_user` and no execution yields the
`not_authorized` dict, the core tool loop runs to completion without an early
exit. -/
theorem execToolsCore_no_early (exec : String → String → ExecOutcome) :
    ∀ (tcs : List LLMToolCall) (ctx stored : List Message),
      (∀ tc ∈ tcs, tc.name ≠ "respond_to_user") →
      (∀ n a j, exec n a ≠ .dictResult true j) →
      ∃ ctx2 stored2, execToolsCore exec tcs ctx stored = .inl (ctx2, stored2) := by
  intro tcs
  induction tcs with
  | nil => intro ctx stored _ _; exact ⟨ctx, stored, rfl⟩
  | cons tc rest ih =>
    intro ctx stored hname hexec
    have hrest : ∀ t ∈ rest, t.name ≠ "respond_to_user" :=
      fun t ht => hname t (List.mem_cons_of_mem tc ht)
    have htc : tc.name ≠ "respond_to_user" := hname tc (List.mem_cons_self tc rest)
    rw [execToolsCore]
    cases hx : exec tc.name tc.arguments with
    | strResult s =>
      simp only [if_neg htc]
      exact ih _ _ hrest hexec
    | dictResult isAuth j =>
      cases isAuth with
      | true => exact absurd hx (hexec tc.name tc.arguments j)
      | false => exact ih _ _ hrest hexec
    | otherResult s => exact ih _ _ hrest hexec
    | raises e => exact ih _ _ hrest hexec

/-- Under an LLM that always returns tool calls, never the terminal tool, the
loop burns all its fuel, making one further LLM call per depth, and ends in
the fixed apology. -/
theorem processCoreAux_all_tools
    (llm : List Message → RetryResult LLMMessage)
    (exec : String → String → ExecOutcome)
    (hllm : ∀ ms, ∃ resp, llm ms = .ok resp ∧ resp.tool_calls ≠ [] ∧
      ∀ tc ∈ resp.tool_calls, tc.name ≠ "respond_to_user")
    (hexec : ∀ n a j, exec n a ≠ .dictResult true j) :
    ∀ (fuel : Nat) (resp : LLMMessage) (st : LoopState),
      resp.tool_calls ≠ [] →
      (∀ tc ∈ resp.tool_calls, tc.name ≠ "respond_to_user") →
      (processCoreAux llm exec fuel resp st).1 = .reply apologyMessage ∧
        (processCoreAux llm exec fuel resp st).2.ncalls = st.ncalls + fuel := by
  intro fuel
  induction fuel with
  | zero => intro resp st _ _; exact ⟨rfl, rfl⟩
  | succ fuel ih =>
    intro resp st hne hnames
    obtain ⟨ctx2, stored2, hex⟩ :=
      execToolsCore_no_early exec resp.tool_calls
        (st.ctx ++ [assistantTurnFull resp])
        (historyAppend st.stored (assistantTurnFull resp)) hnames hexec
    obtain ⟨resp2, hllm2, hne2, hnames2⟩ := hllm ctx2
    rw [processCoreAux]
    simp only [if_neg hne, hex, hllm2]
    have := ih resp2 ⟨ctx2, stored2, st.ncalls + 1⟩ hne2 hnames2
    refine ⟨this.1, ?_⟩
    rw [this.2]
    dsimp only
    omega

/-- C1 (amended): when the LLM response at every depth carries tool calls and
never the terminal `respond_to_user` tool (and no tool result short-circuits
the loop with the `not_authorized` sentinel), the chat turn stops at the depth
ceiling and returns the fixed apologetic message after exactly SEVEN LLM calls
— the initial call plus one call made at each recursion depth 0..5; the
response fetched at depth 5 is processed at depth 6, where `depth > 5` cuts
off.  Not six: the cutoff check runs after the next LLM call has already been
made. -/
theorem depth_ceiling_seven_llm_calls
    (llm : List Message → RetryResult LLMMessage)
    (exec : String → String → ExecOutcome)
    (hllm : ∀ ms, ∃ resp, llm ms = .ok resp ∧ resp.tool_calls ≠ [] ∧
      ∀ tc ∈ resp.tool_calls, tc.name ≠ "respond_to_user")
    (hexec : ∀ n a j, exec n a ≠ .dictResult true j)
    (stored0 : List Message) (p u : String) :
    (chatCore llm exec stored0 p u).1 = .reply apologyMessage ∧
      (chatCore llm exec stored0 p u).2.ncalls = 7 := by
  unfold chatCore
  obtain ⟨resp0, hllm0, hne0, hnames0⟩ :=
    hllm (ensureSystemCore stored0 p ++ [userMsg u])
  simp only [hllm0]
  exact processCoreAux_all_tools llm exec hllm hexec 6 resp0 _ hne0 hnames0

/-- Witness for `depth_ceiling_seven_llm_calls`: a mock LLM that always asks
for one `get_calendar_events` call. -/
theorem depth_ceiling_seven_llm_calls_witness :
    (∀ ms : List Message, ∃ resp,
      (fun _ : List Message =>
        (.ok ⟨none, [⟨"c9", "get_calendar_events", ""⟩]⟩ :
          RetryResult LLMMessage)) ms = .ok resp ∧ resp.tool_calls ≠ [] ∧
        ∀ tc ∈ resp.tool_calls, tc.name ≠ "respond_to_user") ∧
      ((chatCore
          (fun _ => .ok ⟨none, [⟨"c9", "get_calendar_events", ""⟩]⟩)
          (fun _ _ => .otherResult "ok") [] "p" "hi").1 = .reply apologyMessage ∧
        (chatCore
          (fun _ => .ok ⟨none, [⟨"c9", "get_calendar_events", ""⟩]⟩)
          (fun _ _ => .otherResult "ok") [] "p" "hi").2.ncalls = 7) :=
  ⟨fun _ => ⟨⟨none, [⟨"c9", "get_calendar_events", ""⟩]⟩, rfl, by decide, by decide⟩,
    depth_ceiling_seven_llm_calls _ _
      (fun _ => ⟨⟨none, [⟨"c9", "get_calendar_events", ""⟩]⟩, rfl, by decide, by decide⟩)
      (fun _ _ _ h => ExecOutcome.noConfusion h) [] "p" "hi"⟩

/-- C1 (counterexample): a concrete always-tool-calling mock makes the loop
return the apology after exactly 7 LLM calls, refuting the claimed count of
6. -/
theorem depth_ceiling_six_calls_counterexample :
    (chatCore (fun _ => .ok ⟨none, [⟨"c1", "get_tasks", ""⟩]⟩)
        (fun _ _ => .dictResult false "ok") [] "p" "hi").1 = .reply apologyMessage ∧
      (chatCore (fun _ => .ok ⟨none, [⟨"c1", "get_tasks", ""⟩]⟩)
        (fun _ _ => .dictResult false "ok") [] "p" "hi").2.ncalls = 7 ∧
      ¬ (chatCore (fun _ => .ok ⟨none, [⟨"c1", "get_tasks", ""⟩]⟩)
        (fun _ _ => .dictResult false "ok") [] "p" "hi").2.ncalls = 6 := by
  refine ⟨rfl, rfl, by decide⟩

/-! ## Persistence of the assistant tool-call turn (C4) -/

/-- C4 (amended): the core client persists the assistant tool-call turn in the
full structured form — role `assistant`, the response's content, and the
complete `tool_calls` list from which every call's id, name and arguments are
recoverable — as a concrete core-loop run confirms; the app client instead
persists a lossy compacted form with no `tool_calls` field, under which two
different tool-call plans collapse to the same stored message. -/
theorem tool_call_turn_persistence (resp : LLMMessage) :
    ((assistantTurnFull resp).role = "assistant" ∧
      (assistantTurnFull resp).content = resp.content.getD "" ∧
      (assistantTurnFull resp).tool_calls.map (fun c => (c.id, c.name, c.arguments)) =
        resp.tool_calls.map (fun tc => (tc.id, tc.name, tc.arguments))) ∧
      (assistantTurnCompact resp).tool_calls = [] ∧
      assistantTurnFull ⟨none, [⟨"id1", "create_task", "arguments-one"⟩]⟩ ∈
        (chatCore
          (fun ms => if ms.length ≤ 2 then
              .ok ⟨none, [⟨"id1", "create_task", "arguments-one"⟩]⟩
            else .ok ⟨none, [⟨"id2", "respond_to_user", "arguments-two"⟩]⟩)
          (fun n _ => if n = "respond_to_user" then .strResult "Готово"
            else .dictResult false "ok")
          [] "p" "hi").2.stored ∧
      assistantTurnCompact ⟨none, [⟨"a", "create_task", "arguments-one"⟩]⟩ =
        assistantTurnCompact ⟨none, [⟨"b", "create_task", "arguments-two"⟩]⟩ ∧
      (⟨none, [⟨"a", "create_task", "arguments-one"⟩]⟩ : LLMMessage) ≠
        ⟨none, [⟨"b", "create_task", "arguments-two"⟩]⟩ := by
  refine ⟨⟨rfl, rfl, ?_⟩, rfl, by decide, rfl, by decide⟩
  simp [assistantTurnFull]

/-- C4 (counterexample): a concrete chat turn through the app client in which
the LLM first calls a tool and then the terminal tool: the conversation store
afterwards holds only compacted assistant turns — no persisted message carries
any `tool_calls` entry, so the structured form (ids, arguments) did not
survive. -/
theorem app_compact_turn_counterexample :
    (chatApp
        (fun ms => if ms.length ≤ 2 then
            .ok ⟨none, [⟨"id1", "create_task", "arguments-one"⟩]⟩
          else .ok ⟨none, [⟨"id2", "respond_to_user", "arguments-two"⟩]⟩)
        (fun n _ => if n = "respond_to_user" then
            .dict (some "user_response") (some "Готово") "dump"
          else .dict (some "task") none "dump2")
        [] "p" "hi").2.stored =
      [plainMsg "system" "p", plainMsg "user" "hi",
        plainMsg "assistant" "[Использованы инструменты: create_task]",
        plainMsg "assistant" "[Использованы инструменты: respond_to_user]",
        plainMsg "assistant" "Готово"] ∧
      ∀ m ∈ (chatApp
          (fun ms => if ms.length ≤ 2 then
              .ok ⟨none, [⟨"id1", "create_task", "arguments-one"⟩]⟩
            else .ok ⟨none, [⟨"id2", "respond_to_user", "arguments-two"⟩]⟩)
          (fun n _ => if n = "respond_to_user" then
              .dict (some "user_response") (some "Готово") "dump"
            else .dict (some "task") none "dump2")
          [] "p" "hi").2.stored, m.tool_calls = [] := by
  refine ⟨rfl, by decide⟩

/-! ## Owner-id injection and schema stripping (C5) -/

/-- `list.remove` leaves no occurrence behind exactly when the element occurred
at most once. -/
theorem listRemoveFirst_not_mem (l : List String) (x : String)
    (h : l.count x ≤ 1) : x ∉ listRemoveFirst l x := by
  induction l with
  | nil => simp [listRemoveFirst]
  | cons a rest ih =>
    rw [listRemoveFirst]
    by_cases hax : a = x
    · subst hax
      rw [if_pos rfl]
      rw [List.count_cons_self] at h
      exact List.count_eq_zero.mp (by omega)
    · rw [if_neg hax]
      intro hmem
      rcases List.mem_cons.mp hmem with h1 | h1
      · exact hax h1.symm
      · rw [List.count_cons_of_ne (fun hx => hax hx.symm)] at h
        exact ih h h1

/-- Overwriting the (present) key `k` puts `(k, v)` where `find?` for `k`
finds it. -/
theorem find?_overwrite {β : Type} (k : String) (v : β) :
    ∀ l : List (String × β), l.any (fun p => p.1 = k) →
      (l.map (fun p => if p.1 = k then (k, v) else p)).find?
        (fun p => p.1 = k) = some (k, v) := by
  intro l
  induction l with
  | nil => simp
  | cons p rest ih =>
    intro hany
    by_cases hp : p.1 = k
    · simp [hp]
    · rw [List.any_cons] at hany
      have hp0 : (decide (p.1 = k)) = false := by simpa using hp
      rw [hp0, Bool.false_or] at hany
      rw [List.map_cons, if_neg hp, List.find?_cons_of_neg _ (by simpa using hp)]
      exact ih hany

/-- Overwriting key `k` does not affect `find?` for another key. -/
theorem find?_overwrite_ne {β : Type} (k k2 : String) (v : β) (hne : k2 ≠ k) :
    ∀ l : List (String × β),
      (l.map (fun p => if p.1 = k then (k, v) else p)).find?
        (fun p => p.1 = k2) = l.find? (fun p => p.1 = k2) := by
  intro l
  induction l with
  | nil => simp
  | cons p rest ih =>
    by_cases hp : p.1 = k
    · have h1 : ¬ (k = k2) := fun h => hne h.symm
      have h2 : ¬ (p.1 = k2) := by rw [hp]; exact h1
      rw [List.map_cons, if_pos hp, List.find?_cons_of_neg _ (by simpa using h1),
        List.find?_cons_of_neg _ (by simpa using h2)]
      exact ih
    · rw [List.map_cons, if_neg hp]
      by_cases hp2 : p.1 = k2
      · rw [List.find?_cons_of_pos _ (by simpa using hp2),
          List.find?_cons_of_pos _ (by simpa using hp2)]
      · rw [List.find?_cons_of_neg _ (by simpa using hp2),
          List.find?_cons_of_neg _ (by simpa using hp2)]
        exact ih

/-- Appending `(k, v)` does not affect `find?` for another key. -/
theorem find?_append_ne {β : Type} (k k2 : String) (v : β) (hne : k2 ≠ k) :
    ∀ l : List (String × β),
      (l ++ [(k, v)]).find? (fun p => p.1 = k2) = l.find? (fun p => p.1 = k2) := by
  intro l
  induction l with
  | nil =>
    have h1 : ¬ (k = k2) := fun h => hne h.symm
    simp [h1]
  | cons p rest ih =>
    rw [List.cons_append]
    by_cases hp2 : p.1 = k2
    · rw [List.find?_cons_of_pos _ (by simpa using hp2),
        List.find?_cons_of_pos _ (by simpa using hp2)]
    · rw [List.find?_cons_of_neg _ (by simpa using hp2),
        List.find?_cons_of_neg _ (by simpa using hp2)]
      exact ih

/-- Setting a key in a dict makes it retrievable with the set value. -/
theorem dictGet_set_self {β : Type} (l : List (String × β)) (k : String) (v : β) :
    dictGet (dictSet l k v) k = some v := by
  rw [dictSet]
  split
  · rename_i hany
    rw [dictGet, find?_overwrite k v l hany]
    rfl
  · rename_i hany
    rw [Bool.not_eq_true] at hany
    rw [dictGet, List.find?_append]
    have hnone : l.find? (fun p => decide (p.1 = k)) = none := by
      rw [List.find?_eq_none]
      intro p hp
      rcases List.any_eq_false.mp hany p hp with h
      simpa using h
    simp [hnone]

/-- Setting one key leaves lookups of other keys unchanged. -/
theorem dictGet_set_ne {β : Type} (l : List (String × β)) (k k2 : String) (v : β)
    (hne : k2 ≠ k) : dictGet (dictSet l k v) k2 = dictGet l k2 := by
  rw [dictSet]
  split
  · rw [dictGet, find?_overwrite_ne k k2 v hne l, dictGet]
  · rw [dictGet, find?_append_ne k k2 v hne l, dictGet]

/-- C5 (amended): for tools backed by the remote MCP executor, the registry
injects the caller's owner id into the dispatched argument dict
(`arguments["user_id"] = user_id`, retrievable there), while the schema list
shown to the LLM never exposes a `user_id` property — and no `user_id` entry
survives in a tool's `required` list provided the incoming schema lists it at
most once (`list.remove` deletes only the first occurrence). -/
theorem mcp_userid_injected_and_stripped (tools : List MCPToolSchema)
    (hreq : ∀ t ∈ tools, t.required.count "user_id" ≤ 1)
    (localNames mcpNames : List String) (name : String) (uid : Int)
    (args : List (String × JVal))
    (hlocal : name ∉ localNames) (hmcp : name ∈ mcpNames) :
    (∀ t2 ∈ mcpGetToolSchemas tools,
      "user_id" ∉ t2.properties.map Prod.fst ∧ "user_id" ∉ t2.required) ∧
      (∃ args2,
        executeToolDispatch localNames mcpNames name uid args = .mcpTool name args2 ∧
          dictGet args2 "user_id" = some (.jint uid)) := by
  constructor
  · intro t2 ht2
    obtain ⟨t, ht, rfl⟩ := List.mem_map.mp ht2
    constructor
    · intro hmem
      obtain ⟨p, hp, hp1⟩ := List.mem_map.mp hmem
      have := List.of_mem_filter hp
      simp only [decide_eq_true_eq] at this
      exact this hp1
    · dsimp only
      split
      · exact listRemoveFirst_not_mem _ _ (hreq t ht)
      · assumption
  · refine ⟨dictSet args "user_id" (.jint uid), ?_, dictGet_set_self args _ _⟩
    rw [executeToolDispatch, if_neg hlocal, if_pos hmcp]

/-- Witness for `mcp_userid_injected_and_stripped` at a concrete registry. -/
theorem mcp_userid_injected_and_stripped_witness :
    (∀ t ∈ [(⟨"get_tasks", "d", [("user_id", "integer"), ("title", "string")],
        ["user_id", "title"]⟩ : MCPToolSchema)], t.required.count "user_id" ≤ 1) ∧
      "get_tasks" ∉ ["respond_to_user"] ∧ "get_tasks" ∈ ["get_tasks"] ∧
      ((∀ t2 ∈ mcpGetToolSchemas [⟨"get_tasks", "d",
          [("user_id", "integer"), ("title", "string")], ["user_id", "title"]⟩],
        "user_id" ∉ t2.properties.map Prod.fst ∧ "user_id" ∉ t2.required) ∧
        (∃ args2,
          executeToolDispatch ["respond_to_user"] ["get_tasks"] "get_tasks" 42
              [("title", .jstr "x")] = .mcpTool "get_tasks" args2 ∧
            dictGet args2 "user_id" = some (.jint 42))) :=
  ⟨by decide, by decide, by decide,
    mcp_userid_injected_and_stripped _ (by decide) _ _ _ 42 _ (by decide) (by decide)⟩

/-- C5 (counterexample): an incoming schema whose `required` list names
`user_id` twice still requires `user_id` after the strip — `list.remove`
drops only the first occurrence, so the schema shown to the LLM is not free of
`user_id`. -/
theorem mcp_required_duplicate_counterexample :
    mcpGetToolSchemas [⟨"get_tasks", "d",
        [("user_id", "integer"), ("title", "string")],
        ["user_id", "user_id", "title"]⟩] =
      [⟨"get_tasks", "d", [("title", "string")], ["user_id", "title"]⟩] ∧
      "user_id" ∈
        (⟨"get_tasks", "d", [("title", "string")],
          ["user_id", "title"]⟩ : OpenAITool).required := by
  refine ⟨by decide, by decide⟩

/-! ## Watcher cursor advancement (C7) -/

/-- Every message `get_messages_since` returns has an id strictly above the
cursor it was called with. -/
theorem get_messages_since_gt (univ : String → List ChatItem)
    (chat : String) (min_id limit : Nat) :
    ∀ m ∈ get_messages_since univ chat min_id limit, min_id < m.id := by
  intro m hm
  unfold get_messages_since at hm
  rw [List.mem_reverse] at hm
  have hm2 := List.mem_of_mem_filter hm
  have hm3 := List.mem_of_mem_take hm2
  rw [List.mem_reverse] at hm3
  have := List.of_mem_filter hm3
  simpa using this

/-- Elements bound the running maximum of `maxItemId`. -/
theorem maxItemId_le (l : List ChatItem) :
    ∀ a : Nat, (∀ m ∈ l, m.id ≤ l.foldl (fun acc m => max acc m.id) a) ∧
      a ≤ l.foldl (fun acc m => max acc m.id) a := by
  induction l with
  | nil => intro a; exact ⟨by simp, le_rfl⟩
  | cons x rest ih =>
    intro a
    obtain ⟨ih1, ih2⟩ := ih (max a x.id)
    refine ⟨?_, le_trans (le_max_left a x.id) ih2⟩
    intro m hm
    rcases List.mem_cons.mp hm with rfl | hmem
    · exact le_trans (le_max_right a m.id) ih2
    · exact ih1 m hmem

/-- A nonempty message list whose ids all exceed `c` has `maxItemId > c`. -/
theorem maxItemId_gt (l : List ChatItem) (c : Nat) (hne : l ≠ [])
    (hall : ∀ m ∈ l, c < m.id) : c < maxItemId l := by
  match l, hne with
  | m :: rest, _ =>
    have h1 := (maxItemId_le (m :: rest) 0).1 m (List.mem_cons_self m rest)
    exact lt_of_lt_of_le (hall m (List.mem_cons_self m rest)) h1

/-- Once a chat's cursor is set in the accumulator, the rest of the fetch fold
preserves it, because every later update to the same chat recomputes the same
value (all `min_id`s come from the original dict). -/
theorem fetchFold_preserves (univ : String → List ChatItem)
    (last_ids : List (String × Nat)) (t : String) (v : Nat) :
    ∀ (chats : List String) (acc : FetchOk),
      dictGet acc.last_message_ids t = some v →
      (∀ chat ∈ chats, chat = t →
        ((dictGet last_ids t).getD 0 = 0 →
          get_messages_since univ t 0 1 = [] ∨
            maxItemId (get_messages_since univ t 0 1) = v) ∧
        (∀ c, (dictGet last_ids t).getD 0 = c → c ≠ 0 →
          get_messages_since univ t c 500 = [] ∨
            maxItemId (get_messages_since univ t c 500) = v)) →
      dictGet (fetchFold univ last_ids chats acc).last_message_ids t = some v := by
  intro chats
  induction chats with
  | nil => intro acc hacc _; exact hacc
  | cons chat rest ih =>
    intro acc hacc hsame
    simp only [fetchFold]
    have hrest : ∀ c ∈ rest, c = t →
        ((dictGet last_ids t).getD 0 = 0 →
          get_messages_since univ t 0 1 = [] ∨
            maxItemId (get_messages_since univ t 0 1) = v) ∧
        (∀ c2, (dictGet last_ids t).getD 0 = c2 → c2 ≠ 0 →
          get_messages_since univ t c2 500 = [] ∨
            maxItemId (get_messages_since univ t c2 500) = v) :=
      fun c hc => hsame c (List.mem_cons_of_mem chat hc)
    by_cases hct : chat = t
    · subst hct
      have hspec := hsame chat (List.mem_cons_self chat rest) rfl
      split
      · rename_i hzero
        split
        · exact ih acc hacc hrest
        · rename_i hlat
          rcases hspec.1 hzero with hempty | hmax
          · exact absurd hempty hlat
          · refine ih _ ?_ hrest
            dsimp only
            rw [hmax]
            exact dictGet_set_self acc.last_message_ids chat v
      · rename_i hzero
        split
        · exact ih acc hacc hrest
        · rename_i hlat
          rcases hspec.2 _ rfl hzero with hempty | hmax
          · exact absurd hempty hlat
          · refine ih _ ?_ hrest
            dsimp only
            rw [hmax]
            exact dictGet_set_self acc.last_message_ids chat v
    · have hkeep : ∀ w, dictGet (dictSet acc.last_message_ids chat w) t = some v := by
        intro w
        rw [dictGet_set_ne _ chat t w (fun h => hct h.symm)]
        exact hacc
      split
      · split
        · exact ih acc hacc hrest
        · exact ih _ (hkeep _) hrest
      · split
        · exact ih acc hacc hrest
        · exact ih _ (hkeep _) hrest

/-- For a target with a nonzero cursor whose fetch returns new messages, the
fetch fold records the maximum fetched id as the target's new cursor. -/
theorem fetchFold_sets_cursor (univ : String → List ChatItem)
    (last_ids : List (String × Nat)) (t : String) (c : Nat)
    (hc : dictGet last_ids t = some c) (hc0 : c ≠ 0)
    (hne : get_messages_since univ t c 500 ≠ []) :
    ∀ (chats : List String) (acc : FetchOk), t ∈ chats →
      dictGet (fetchFold univ last_ids chats acc).last_message_ids t =
        some (maxItemId (get_messages_since univ t c 500)) := by
  have hgetD : (dictGet last_ids t).getD 0 = c := by rw [hc]; rfl
  have hsame : ∀ chat2, chat2 = t →
      ((dictGet last_ids t).getD 0 = 0 →
        get_messages_since univ t 0 1 = [] ∨
          maxItemId (get_messages_since univ t 0 1) =
            maxItemId (get_messages_since univ t c 500)) ∧
      (∀ c2, (dictGet last_ids t).getD 0 = c2 → c2 ≠ 0 →
        get_messages_since univ t c2 500 = [] ∨
          maxItemId (get_messages_since univ t c2 500) =
            maxItemId (get_messages_since univ t c 500)) := by
    intro chat2 _
    refine ⟨fun h0 => absurd (hgetD.symm.trans h0) hc0, ?_⟩
    intro c2 hc2 _
    right
    rw [hgetD] at hc2
    rw [hc2]
  intro chats
  induction chats with
  | nil => intro acc h; exact absurd h (List.not_mem_nil t)
  | cons chat rest ih =>
    intro acc hmem
    simp only [fetchFold]
    by_cases hct : chat = t
    · subst hct
      rw [if_neg (by rw [hgetD]; exact hc0), hgetD, if_neg hne]
      exact fetchFold_preserves univ last_ids chat _ rest _
        (by dsimp only; exact dictGet_set_self _ _ _)
        (fun c2 _ hc2 => hsame c2 hc2)
    · rcases List.mem_cons.mp hmem with h1 | h1
      · exact absurd h1.symm hct
      · split
        · split
          · exact ih acc h1
          · exact ih _ h1
        · split
          · exact ih acc h1
          · exact ih _ h1

/-- C7: after a successful watcher tick for a target with nonzero cursor `c`
whose fetch returns new items but whose LLM filter matches none of them, the
delivered set is empty while the persisted cursor dict maps the target to the
highest fetched id, which strictly exceeds `c`; a fetch from the advanced
cursor only ever returns strictly newer ids (no re-fetch at or below it); and
the persisted cursor dict does not depend on the filter's output at all. -/
theorem watcher_cursor_advances (univ : String → List ChatItem)
    (llmFilter : List ChatItem → String → List ChatItem) (w : Watcher)
    (t : String) (c : Nat)
    (ht : t ∈ w.chat_ids) (hc : dictGet w.last_message_ids t = some c)
    (hc0 : c ≠ 0)
    (hne : get_messages_since univ t c 500 ≠ [])
    (hfilter : llmFilter
      (fetch_new_chat_messages univ w.chat_ids w.last_message_ids).messages
      w.prompt = []) :
    (process_watcher true univ llmFilter w).delivered = [] ∧
      (process_watcher true univ llmFilter w).persistedCursors =
        some (fetch_new_chat_messages univ w.chat_ids w.last_message_ids).last_message_ids ∧
      dictGet (fetch_new_chat_messages univ w.chat_ids
          w.last_message_ids).last_message_ids t =
        some (maxItemId (get_messages_since univ t c 500)) ∧
      c < maxItemId (get_messages_since univ t c 500) ∧
      (∀ m ∈ get_messages_since univ t
          (maxItemId (get_messages_since univ t c 500)) 500,
        maxItemId (get_messages_since univ t c 500) < m.id) ∧
      (∀ (authed : Bool) f g,
        (process_watcher authed univ f w).persistedCursors =
          (process_watcher authed univ g w).persistedCursors) := by
  refine ⟨?_, ?_, ?_, ?_, ?_, ?_⟩
  · simp only [process_watcher]
    rw [if_neg (fun h => h trivial)]
    split
    · rfl
    · rfl
  · simp only [process_watcher]
    rw [if_neg (fun h => h trivial)]
    split
    · rfl
    · rfl
  · exact fetchFold_sets_cursor univ w.last_message_ids t c hc hc0 hne
      w.chat_ids ⟨[], w.last_message_ids⟩ ht
  · exact maxItemId_gt _ c hne (get_messages_since_gt univ t c 500)
  · exact get_messages_since_gt univ t _ 500
  · intro authed f g
    cases authed with
    | false => rfl
    | true =>
      by_cases hm : (fetch_new_chat_messages univ w.chat_ids
          w.last_message_ids).messages = []
      · simp [process_watcher, hm]
      · simp only [process_watcher]
        rw [if_neg (fun h => h trivial)]
        rw [if_neg hm]
        conv_rhs => rw [if_neg (fun h : ¬ True => h trivial), if_neg hm]
        split <;> split <;> rfl

/-- Witness for `watcher_cursor_advances`: one chat with cursor 1 and three
newer messages, a filter that matches nothing. -/
theorem watcher_cursor_advances_witness :
    ("chat" ∈ (⟨5, "crit", ["chat"], [("chat", 1)]⟩ : Watcher).chat_ids) ∧
      dictGet (⟨5, "crit", ["chat"], [("chat", 1)]⟩ : Watcher).last_message_ids
        "chat" = some 1 ∧
      ((process_watcher true
          (fun _ => [⟨1, "a"⟩, ⟨2, "b"⟩, ⟨3, "c"⟩, ⟨4, "d"⟩])
          (fun _ _ => []) ⟨5, "crit", ["chat"], [("chat", 1)]⟩).delivered = [] ∧
        dictGet (fetch_new_chat_messages
            (fun _ => [⟨1, "a"⟩, ⟨2, "b"⟩, ⟨3, "c"⟩, ⟨4, "d"⟩])
            ["chat"] [("chat", 1)]).last_message_ids "chat" =
          some (maxItemId (get_messages_since
            (fun _ => [⟨1, "a"⟩, ⟨2, "b"⟩, ⟨3, "c"⟩, ⟨4, "d"⟩]) "chat" 1 500)) ∧
        1 < maxItemId (get_messages_since
          (fun _ => [⟨1, "a"⟩, ⟨2, "b"⟩, ⟨3, "c"⟩, ⟨4, "d"⟩]) "chat" 1 500)) := by
  have h := watcher_cursor_advances
    (fun _ => [⟨1, "a"⟩, ⟨2, "b"⟩, ⟨3, "c"⟩, ⟨4, "d"⟩])
    (fun _ _ => []) ⟨5, "crit", ["chat"], [("chat", 1)]⟩ "chat" 1
    (by decide) (by decide) (by decide) (by decide) rfl
  exact ⟨by decide, by decide, h.1, h.2.2.1, h.2.2.2.1⟩

/-! ## Reminder reconciliation (C6, C10) -/

/-- One event step only appends: the synced-id set evolves independently of
the jobs already collected, and new jobs are appended after them. -/
theorem syncProcessEvent_decomp (u : Int) (e : CalEvent) (acc : SyncAcc) :
    syncProcessEvent u acc e =
      ⟨(syncProcessEvent u ⟨acc.synced, []⟩ e).synced,
        acc.jobs ++ (syncProcessEvent u ⟨acc.synced, []⟩ e).jobs⟩ := by
  obtain ⟨syn, js⟩ := acc
  by_cases h1 : pyStartsWith e.description REMINDER_TAG
  · by_cases h2 : calEventId e ∈ syn
    · simp [syncProcessEvent, h1, h2]
    · by_cases h3 : pyTrim (e.description.drop REMINDER_TAG.length) = ""
      · simp [syncProcessEvent, h1, h2, h3]
      · by_cases h4 : e.start = ""
        · simp [syncProcessEvent, h1, h2, h3, h4]
        · cases hps : parseStart e.start with
          | none => simp [syncProcessEvent, h1, h2, h3, h4, hps]
          | some ps => simp [syncProcessEvent, h1, h2, h3, h4, hps]
  · simp [syncProcessEvent, h1]

/-- The event fold, decomposed the same way. -/
theorem syncEvents_decomp (u : Int) (evs : List CalEvent) :
    ∀ acc : SyncAcc,
      evs.foldl (syncProcessEvent u) acc =
        ⟨(evs.foldl (syncProcessEvent u) ⟨acc.synced, []⟩).synced,
          acc.jobs ++ (evs.foldl (syncProcessEvent u) ⟨acc.synced, []⟩).jobs⟩ := by
  induction evs with
  | nil => intro acc; simp
  | cons e rest ih =>
    intro acc
    rw [List.foldl_cons, List.foldl_cons]
    rw [syncProcessEvent_decomp u e acc]
    rw [ih ⟨(syncProcessEvent u ⟨acc.synced, []⟩ e).synced,
      acc.jobs ++ (syncProcessEvent u ⟨acc.synced, []⟩ e).jobs⟩]
    rw [ih (syncProcessEvent u ⟨acc.synced, []⟩ e)]
    dsimp only
    simp [List.append_assoc]

/-- The per-user step, decomposed the same way. -/
theorem syncUser_decomp (creds : Int → Except Unit Bool)
    (events : Int → Except Unit (List CalEvent)) (u : Int) (acc : SyncAcc) :
    syncUser creds events acc u =
      ⟨(syncUser creds events ⟨acc.synced, []⟩ u).synced,
        acc.jobs ++ (syncUser creds events ⟨acc.synced, []⟩ u).jobs⟩ := by
  unfold syncUser
  cases creds u with
  | error e => simp
  | ok b =>
    cases b with
    | false => simp
    | true =>
      cases events u with
      | error e => simp
      | ok evs => exact syncEvents_decomp u evs acc

/-- The user fold, decomposed the same way. -/
theorem syncUsers_decomp (creds : Int → Except Unit Bool)
    (events : Int → Except Unit (List CalEvent)) (U : List Int) :
    ∀ acc : SyncAcc,
      U.foldl (syncUser creds events) acc =
        ⟨(U.foldl (syncUser creds events) ⟨acc.synced, []⟩).synced,
          acc.jobs ++ (U.foldl (syncUser creds events) ⟨acc.synced, []⟩).jobs⟩ := by
  induction U with
  | nil => intro acc; simp
  | cons u rest ih =>
    intro acc
    rw [List.foldl_cons, List.foldl_cons]
    rw [syncUser_decomp creds events u acc]
    rw [ih ⟨(syncUser creds events ⟨acc.synced, []⟩ u).synced,
      acc.jobs ++ (syncUser creds events ⟨acc.synced, []⟩ u).jobs⟩]
    rw [ih (syncUser creds events ⟨acc.synced, []⟩ u)]
    dsimp only
    simp [List.append_assoc]

/-- A job found after an event step was already there, or belongs to the
synced user and is active. -/
theorem syncProcessEvent_jobs_prop (u : Int) (e : CalEvent) (acc : SyncAcc) :
    ∀ r ∈ (syncProcessEvent u acc e).jobs,
      r ∈ acc.jobs ∨ (r.user_id = u ∧ r.is_active = true) := by
  obtain ⟨syn, js⟩ := acc
  intro r hr
  by_cases h1 : pyStartsWith e.description REMINDER_TAG
  · by_cases h2 : calEventId e ∈ syn
    · simp only [syncProcessEvent, h1, h2] at hr
      simp at hr
      exact Or.inl hr
    · by_cases h3 : pyTrim (e.description.drop REMINDER_TAG.length) = ""
      · simp [syncProcessEvent, h1, h2, h3] at hr
        exact Or.inl hr
      · by_cases h4 : e.start = ""
        · simp [syncProcessEvent, h1, h2, h3, h4] at hr
          exact Or.inl hr
        · cases hps : parseStart e.start with
          | none =>
            simp [syncProcessEvent, h1, h2, h3, h4, hps] at hr
            exact Or.inl hr
          | some ps =>
            simp [syncProcessEvent, h1, h2, h3, h4, hps] at hr
            rcases hr with hr | hr
            · exact Or.inl hr
            · subst hr; exact Or.inr ⟨rfl, rfl⟩
  · simp [syncProcessEvent, h1] at hr
    exact Or.inl hr

/-- A job found after the event fold was already there, or belongs to the
synced user and is active. -/
theorem syncEvents_jobs_prop (u : Int) (evs : List CalEvent) :
    ∀ acc : SyncAcc, ∀ r ∈ (evs.foldl (syncProcessEvent u) acc).jobs,
      r ∈ acc.jobs ∨ (r.user_id = u ∧ r.is_active = true) := by
  induction evs with
  | nil => intro acc r hr; exact Or.inl hr
  | cons e rest ih =>
    intro acc r hr
    rw [List.foldl_cons] at hr
    rcases ih (syncProcessEvent u acc e) r hr with h | h
    · exact syncProcessEvent_jobs_prop u e acc r h
    · exact Or.inr h

/-- A job found after the per-user step was already there, or belongs to that
user and is active. -/
theorem syncUser_jobs_prop (creds : Int → Except Unit Bool)
    (events : Int → Except Unit (List CalEvent)) (u : Int) (acc : SyncAcc) :
    ∀ r ∈ (syncUser creds events acc u).jobs,
      r ∈ acc.jobs ∨ (r.user_id = u ∧ r.is_active = true) := by
  unfold syncUser
  cases creds u with
  | error e => intro r hr; exact Or.inl hr
  | ok b =>
    cases b with
    | false => intro r hr; exact Or.inl hr
    | true =>
      cases events u with
      | error e => intro r hr; exact Or.inl hr
      | ok evs => exact syncEvents_jobs_prop u evs acc

/-- A job found after the user fold was already there, or belongs to one of
the folded users and is active. -/
theorem syncUsers_jobs_prop (creds : Int → Except Unit Bool)
    (events : Int → Except Unit (List CalEvent)) (U : List Int) :
    ∀ acc : SyncAcc, ∀ r ∈ (U.foldl (syncUser creds events) acc).jobs,
      r ∈ acc.jobs ∨ (r.user_id ∈ U ∧ r.is_active = true) := by
  induction U with
  | nil => intro acc r hr; exact Or.inl hr
  | cons u rest ih =>
    intro acc r hr
    rw [List.foldl_cons] at hr
    rcases ih (syncUser creds events acc u) r hr with h | h
    · rcases syncUser_jobs_prop creds events u acc r h with h2 | h2
      · exact Or.inl h2
      · exact Or.inr ⟨h2.1 ▸ List.mem_cons_self u rest, h2.2⟩
    · exact Or.inr ⟨List.mem_cons_of_mem u h.1, h.2⟩

/-- An event step that creates no job records no synced id either: the synced
set only grows when a reminder is saved. -/
theorem syncProcessEvent_no_job_synced (u : Int) (e : CalEvent) (syn : List String)
    (h : (syncProcessEvent u ⟨syn, []⟩ e).jobs = []) :
    (syncProcessEvent u ⟨syn, []⟩ e).synced = syn := by
  by_cases h1 : pyStartsWith e.description REMINDER_TAG
  · by_cases h2 : calEventId e ∈ syn
    · simp [syncProcessEvent, h1, h2]
    · by_cases h3 : pyTrim (e.description.drop REMINDER_TAG.length) = ""
      · simp [syncProcessEvent, h1, h2, h3]
      · by_cases h4 : e.start = ""
        · simp [syncProcessEvent, h1, h2, h3, h4]
        · cases hps : parseStart e.start with
          | none => simp [syncProcessEvent, h1, h2, h3, h4, hps]
          | some ps => simp [syncProcessEvent, h1, h2, h3, h4, hps] at h
  · simp [syncProcessEvent, h1]

/-- An event fold that creates no job leaves the synced set unchanged. -/
theorem syncEvents_no_job_synced (u : Int) (evs : List CalEvent) :
    ∀ syn : List String,
      (evs.foldl (syncProcessEvent u) ⟨syn, []⟩).jobs = [] →
      (evs.foldl (syncProcessEvent u) ⟨syn, []⟩).synced = syn := by
  induction evs with
  | nil => intro syn _; rfl
  | cons e rest ih =>
    intro syn h
    rw [List.foldl_cons] at h ⊢
    rw [syncEvents_decomp u rest (syncProcessEvent u ⟨syn, []⟩ e)] at h ⊢
    dsimp only at h ⊢
    rcases List.append_eq_nil.mp h with ⟨hStep, hRest⟩
    have hsyn : (syncProcessEvent u ⟨syn, []⟩ e).synced = syn :=
      syncProcessEvent_no_job_synced u e syn hStep
    rw [hsyn] at hRest ⊢
    exact ih syn hRest

/-- A per-user step that creates no job leaves the synced set unchanged. -/
theorem syncUser_no_job_synced (creds : Int → Except Unit Bool)
    (events : Int → Except Unit (List CalEvent)) (u : Int) (syn : List String)
    (h : (syncUser creds events ⟨syn, []⟩ u).jobs = []) :
    (syncUser creds events ⟨syn, []⟩ u).synced = syn := by
  unfold syncUser at h ⊢
  cases hc : creds u with
  | error e => simp [hc]
  | ok b =>
    cases b with
    | false => simp [hc]
    | true =>
      simp only [hc] at h ⊢
      cases he : events u with
      | error e2 => simp [he]
      | ok evs =>
        simp only [he] at h ⊢
        exact syncEvents_no_job_synced u evs syn h

/-- `dedupKeepFirst` membership. -/
theorem mem_dedupKeepFirst (a : Int) : ∀ l : List Int,
    a ∈ dedupKeepFirst l ↔ a ∈ l := by
  intro l
  induction l with
  | nil => simp [dedupKeepFirst]
  | cons x xs ih =>
    rw [dedupKeepFirst]
    by_cases hax : a = x
    · subst hax; simp
    · simp only [List.mem_cons, hax, false_or]
      rw [List.mem_filter]
      simp [hax, ih]

/-- `dedupKeepFirst` output has no duplicates. -/
theorem nodup_dedupKeepFirst : ∀ l : List Int, (dedupKeepFirst l).Nodup := by
  intro l
  induction l with
  | nil => simp [dedupKeepFirst]
  | cons x xs ih =>
    rw [dedupKeepFirst]
    refine List.Nodup.cons ?_ (List.Nodup.filter _ ih)
    intro hmem
    have := List.of_mem_filter hmem
    simp at this

/-- A nonempty all-`u` block followed by a `u`-free tail de-duplicates to `u`
followed by the de-duplicated tail. -/
theorem dedupKeepFirst_block (u : Int) :
    ∀ (A B : List Int), A ≠ [] → (∀ x ∈ A, x = u) → u ∉ B →
      dedupKeepFirst (A ++ B) = u :: dedupKeepFirst B := by
  intro A
  induction A with
  | nil => intro B h; exact absurd rfl h
  | cons a A2 ih =>
    intro B _ hall hB
    have ha : a = u := hall a (List.mem_cons_self a A2)
    have hufree : ∀ y ∈ dedupKeepFirst B, (y ≠ u) := by
      intro y hy hyu
      exact hB (hyu ▸ (mem_dedupKeepFirst y B).mp hy)
    by_cases hA2 : A2 = []
    · subst hA2
      rw [List.cons_append, List.nil_append, dedupKeepFirst, ha]
      congr 1
      rw [List.filter_eq_self]
      intro y hy
      simpa using hufree y hy
    · rw [List.cons_append, dedupKeepFirst,
        ih B hA2 (fun x hx => hall x (List.mem_cons_of_mem a hx)) hB, ha]
      congr 1
      rw [List.filter_cons]
      simp only [decide_eq_true_eq]
      rw [if_neg (by simp)]
      rw [List.filter_eq_self]
      intro y hy
      simpa using hufree y hy

/-- Core of the reconciliation-idempotence argument: folding the owners a pass
discovers in its own output over the same calendar reproduces that output
exactly.  Owners who contributed nothing drop out of the second pass's owner
set, but they contributed neither jobs nor synced ids, so the surviving
owners see identical accumulator states. -/
theorem sync_pass_stable (creds : Int → Except Unit Bool)
    (events : Int → Except Unit (List CalEvent)) :
    ∀ (U : List Int) (syn : List String),
      (∀ u ∈ U, u ≠ 0) → U.Nodup →
      ((syncUserIds ((U.foldl (syncUser creds events) ⟨syn, []⟩).jobs)).foldl
          (syncUser creds events) ⟨syn, []⟩).jobs =
        (U.foldl (syncUser creds events) ⟨syn, []⟩).jobs := by
  intro U
  induction U with
  | nil =>
    intro syn _ _
    simp [syncUserIds, dedupKeepFirst]
  | cons u rest ih =>
    intro syn hnz hnodup
    obtain ⟨hu_notin, hnodup_rest⟩ := List.nodup_cons.mp hnodup
    have hu0 : u ≠ 0 := hnz u (List.mem_cons_self u rest)
    have hnz_rest : ∀ v ∈ rest, v ≠ 0 :=
      fun v hv => hnz v (List.mem_cons_of_mem u hv)
    have hSprop : ∀ r ∈ (syncUser creds events ⟨syn, []⟩ u).jobs,
        r.user_id = u ∧ r.is_active = true := by
      intro r hr
      rcases syncUser_jobs_prop creds events u ⟨syn, []⟩ r hr with h | h
      · simp at h
      · exact h
    have hFprop : ∀ r ∈ (rest.foldl (syncUser creds events)
        ⟨(syncUser creds events ⟨syn, []⟩ u).synced, []⟩).jobs,
        r.user_id ∈ rest ∧ r.is_active = true := by
      intro r hr
      rcases syncUsers_jobs_prop creds events rest _ r hr with h | h
      · simp at h
      · exact h
    have htot : (u :: rest).foldl (syncUser creds events) ⟨syn, []⟩ =
        ⟨(rest.foldl (syncUser creds events)
            ⟨(syncUser creds events ⟨syn, []⟩ u).synced, []⟩).synced,
          (syncUser creds events ⟨syn, []⟩ u).jobs ++
            (rest.foldl (syncUser creds events)
              ⟨(syncUser creds events ⟨syn, []⟩ u).synced, []⟩).jobs⟩ := by
      rw [List.foldl_cons,
        syncUsers_decomp creds events rest (syncUser creds events ⟨syn, []⟩ u)]
    have hFilterF : (rest.foldl (syncUser creds events)
          ⟨(syncUser creds events ⟨syn, []⟩ u).synced, []⟩).jobs.filter
            (fun r => r.is_active) =
        (rest.foldl (syncUser creds events)
          ⟨(syncUser creds events ⟨syn, []⟩ u).synced, []⟩).jobs :=
      List.filter_eq_self.mpr (fun r hr => (hFprop r hr).2)
    have hFidsB : ∀ x ∈ (rest.foldl (syncUser creds events)
        ⟨(syncUser creds events ⟨syn, []⟩ u).synced, []⟩).jobs.map
          (fun r => r.user_id), x ∈ rest := by
      intro x hx
      obtain ⟨r, hr, rfl⟩ := List.mem_map.mp hx
      exact (hFprop r hr).1
    have hBnz : ∀ x ∈ (rest.foldl (syncUser creds events)
        ⟨(syncUser creds events ⟨syn, []⟩ u).synced, []⟩).jobs.map
          (fun r => r.user_id), decide (x ≠ 0) = true := by
      intro x hx
      simpa using hnz_rest x (hFidsB x hx)
    have hAnz : ∀ x ∈ (syncUser creds events ⟨syn, []⟩ u).jobs.map
        (fun r => r.user_id), decide (x ≠ 0) = true := by
      intro x hx
      obtain ⟨r, hr, rfl⟩ := List.mem_map.mp hx
      simp [(hSprop r hr).1, hu0]
    have hFids : syncUserIds ((rest.foldl (syncUser creds events)
          ⟨(syncUser creds events ⟨syn, []⟩ u).synced, []⟩).jobs) =
        dedupKeepFirst ((rest.foldl (syncUser creds events)
          ⟨(syncUser creds events ⟨syn, []⟩ u).synced, []⟩).jobs.map
            (fun r => r.user_id)) := by
      unfold syncUserIds
      rw [hFilterF, List.filter_eq_self.mpr hBnz]
    have hTotIds : syncUserIds ((syncUser creds events ⟨syn, []⟩ u).jobs ++
          (rest.foldl (syncUser creds events)
            ⟨(syncUser creds events ⟨syn, []⟩ u).synced, []⟩).jobs) =
        dedupKeepFirst
          (((syncUser creds events ⟨syn, []⟩ u).jobs.map (fun r => r.user_id)) ++
            ((rest.foldl (syncUser creds events)
              ⟨(syncUser creds events ⟨syn, []⟩ u).synced, []⟩).jobs.map
                (fun r => r.user_id))) := by
      unfold syncUserIds
      rw [List.filter_append,
        List.filter_eq_self.mpr (fun r hr => (hSprop r hr).2), hFilterF,
        List.map_append, List.filter_append,
        List.filter_eq_self.mpr hAnz, List.filter_eq_self.mpr hBnz]
    by_cases hSj : (syncUser creds events ⟨syn, []⟩ u).jobs = []
    · -- the head user contributed nothing and vanishes from the second pass
      have hsynced : (syncUser creds events ⟨syn, []⟩ u).synced = syn :=
        syncUser_no_job_synced creds events u syn hSj
      rw [htot]
      dsimp only
      rw [hSj, hsynced, List.nil_append]
      exact ih syn hnz_rest hnodup_rest
    · -- the head user contributed and leads the second pass again
      have hAne : (syncUser creds events ⟨syn, []⟩ u).jobs.map
          (fun r => r.user_id) ≠ [] := by
        simpa using hSj
      have hAall : ∀ x ∈ (syncUser creds events ⟨syn, []⟩ u).jobs.map
          (fun r => r.user_id), x = u := by
        intro x hx
        obtain ⟨r, hr, rfl⟩ := List.mem_map.mp hx
        exact (hSprop r hr).1
      have hBnou : u ∉ (rest.foldl (syncUser creds events)
          ⟨(syncUser creds events ⟨syn, []⟩ u).synced, []⟩).jobs.map
            (fun r => r.user_id) :=
        fun hmem => hu_notin (hFidsB u hmem)
      rw [htot]
      dsimp only
      rw [hTotIds, dedupKeepFirst_block u _ _ hAne hAall hBnou,
        List.foldl_cons,
        syncUsers_decomp creds events _ (syncUser creds events ⟨syn, []⟩ u)]
      dsimp only
      congr 1
      rw [← hFids]
      exact ih (syncUser creds events ⟨syn, []⟩ u).synced hnz_rest hnodup_rest

/-- Owner ids discovered by a pass are nonzero. -/
theorem syncUserIds_ne_zero (S : List Reminder) :
    ∀ u ∈ syncUserIds S, u ≠ 0 := by
  intro u hu
  have := (mem_dedupKeepFirst u _).mp hu
  have := List.of_mem_filter this
  simpa using this

/-- Owner ids discovered by a pass contain no duplicates. -/
theorem syncUserIds_nodup (S : List Reminder) : (syncUserIds S).Nodup :=
  nodup_dedupKeepFirst _

/-- C6: reconciliation is idempotent over an unchanged calendar — running a
second pass on the output of a first pass (same credentials and events
oracles) reproduces the persisted reminder set exactly, job for job (by
owner, payload, recurrence, time, timezone and linked event); in particular a
single tagged daily 20:00 event (offset +05:00) for an owner with one prior
reminder yields exactly the same one-job set after either pass. -/
theorem reconciliation_idempotent (creds : Int → Except Unit Bool)
    (events : Int → Except Unit (List CalEvent)) (S : List Reminder) :
    syncFromCalendar creds events (syncFromCalendar creds events S) =
      syncFromCalendar creds events S ∧
      (syncFromCalendar (fun _ => .ok true)
          (fun _ => .ok [⟨"e1", none, "#напоминание спросить как дела",
            "2025-01-06T20:00:00+05:00", ["RRULE:FREQ=DAILY"]⟩])
          [⟨7, "x", "daily", "09:00", "+05:00", none, none, true⟩] =
        [⟨7, "спросить как дела", "daily", "20:00", "+05:00", none,
          some "e1", true⟩]) := by
  constructor
  · unfold syncFromCalendar
    exact sync_pass_stable creds events (syncUserIds S) []
      (syncUserIds_ne_zero S) (syncUserIds_nodup S)
  · rfl

/-- C10: the reconciliation pass derives its owner set from the pre-pass
store and rebuilds everything from scratch (so the output depends on the old
store only through its owner set — the wholesale delete happens before any
calendar fetch), and a per-owner failure while re-creating (here: the event
fetch raising) is swallowed: that owner simply contributes nothing, exactly
as if the calendar had no tagged events, and ends the pass with zero
persisted reminders even though reminders existed before — reconciliation is
not atomic with respect to errors. -/
theorem reconciliation_not_atomic (creds : Int → Except Unit Bool)
    (events : Int → Except Unit (List CalEvent)) (S S2 : List Reminder) (u : Int)
    (hown : ∃ r ∈ S, r.is_active = true ∧ r.user_id = u)
    (hfail : events u = .error ())
    (hsame : syncUserIds S2 = syncUserIds S) :
    (syncFromCalendar creds events S).filter (fun r => r.user_id = u) = [] ∧
      syncFromCalendar creds events S =
        syncFromCalendar creds (fun v => if v = u then .ok [] else events v) S ∧
      syncFromCalendar creds events S2 = syncFromCalendar creds events S := by
  refine ⟨?_, ?_, ?_⟩
  · unfold syncFromCalendar
    have key : ∀ (U : List Int) (acc : SyncAcc),
        (U.foldl (syncUser creds events) acc).jobs.filter
            (fun r => r.user_id = u) =
          acc.jobs.filter (fun r => r.user_id = u) := by
      intro U
      induction U with
      | nil => intro acc; rfl
      | cons v rest ih =>
        intro acc
        rw [List.foldl_cons, ih (syncUser creds events acc v)]
        by_cases hvu : v = u
        · subst hvu
          unfold syncUser
          cases hc : creds v with
          | error e => rfl
          | ok b =>
            cases b with
            | false => rfl
            | true => simp [hfail]
        · rw [syncUser_decomp creds events v acc]
          dsimp only
          rw [List.filter_append]
          have hnone : (syncUser creds events ⟨acc.synced, []⟩ v).jobs.filter
              (fun r => r.user_id = u) = [] := by
            rw [List.filter_eq_nil]
            intro r2 hr2 hdec
            rw [decide_eq_true_eq] at hdec
            rcases syncUser_jobs_prop creds events v _ r2 hr2 with h2 | h2
            · simp at h2
            · exact hvu (h2.1 ▸ hdec)
          rw [hnone, List.append_nil]
    rw [key (syncUserIds S) ⟨[], []⟩]
    rfl
  · unfold syncFromCalendar
    congr 1
    apply List.foldl_ext
    intro acc v hv
    by_cases hvu : v = u
    · subst hvu
      unfold syncUser
      cases hc : creds v with
      | error e => simp
      | ok b =>
        cases b with
        | false => simp
        | true => simp [hfail]
    · unfold syncUser
      simp [hvu]
  · unfold syncFromCalendar
    rw [hsame]

/-- Witness for `reconciliation_not_atomic`: owner 7 has one stored reminder;
the event fetch raises for every owner; after the pass owner 7 has zero
reminders. -/
theorem reconciliation_not_atomic_witness :
    (∃ r ∈ [(⟨7, "x", "daily", "09:00", "+05:00", none, none, true⟩ : Reminder)],
      r.is_active = true ∧ r.user_id = 7) ∧
      ((fun _ : Int => (.error () : Except Unit (List CalEvent))) 7 = .error ()) ∧
      syncUserIds [(⟨7, "x", "daily", "09:00", "+05:00", none, none, true⟩ : Reminder)] =
        syncUserIds [⟨7, "x", "daily", "09:00", "+05:00", none, none, true⟩] ∧
      ((syncFromCalendar (fun _ => .ok true) (fun _ => .error ())
          [⟨7, "x", "daily", "09:00", "+05:00", none, none, true⟩]).filter
            (fun r => r.user_id = 7) = [] ∧
        syncFromCalendar (fun _ => .ok true) (fun _ => .error ())
            [⟨7, "x", "daily", "09:00", "+05:00", none, none, true⟩] =
          syncFromCalendar (fun _ => .ok true)
            (fun v => if v = 7 then .ok [] else .error ())
            [⟨7, "x", "daily", "09:00", "+05:00", none, none, true⟩] ∧
        syncFromCalendar (fun _ => .ok true) (fun _ => .error ())
            [⟨7, "x", "daily", "09:00", "+05:00", none, none, true⟩] =
          syncFromCalendar (fun _ => .ok true) (fun _ => .error ())
            [⟨7, "x", "daily", "09:00", "+05:00", none, none, true⟩]) :=
  ⟨⟨⟨7, "x", "daily", "09:00", "+05:00", none, none, true⟩, by decide, by decide⟩,
    rfl, rfl,
    reconciliation_not_atomic (fun _ => .ok true) (fun _ => .error ()) _ _ 7
      ⟨⟨7, "x", "daily", "09:00", "+05:00", none, none, true⟩, by decide, by decide⟩
      rfl rfl⟩
